import Mathlib

/-!
Verification of the World_Monitor ingestion/persistence core.

This file is a shallow embedding, in Lean 4, of the parts of the repository
that the specification's claims talk about:

* `backend/app/connectors/common.py` — text normalization and classification;
* `backend/app/data/event_store.py`  — dedupe hashing, `upsert_events`,
  `list_events`' time-window comparison, `add_alert_event`,
  `update_alert_event_status`;
* `backend/app/jobs/event_ingestion.py` — `_rule_matches`, `_evaluate_rules`,
  and the single-flight guard of `ingest`;
* `backend/app/connectors/{usgs,gdelt,rss}.py` — the `fetch` boundary.

Modelling conventions (used consistently below):

* Python `str` becomes `String`; all character-level operations
  (`lower`, `strip`, `isalnum`) are modelled on the ASCII fragment, which is
  the alphabet the pipeline's normalized text actually uses.
* SHA-256 hex digests (`hashlib.sha256(x).hexdigest()`) are modelled by an
  injective stand-in `sha256_hex` that returns its input: the claims only
  ever rely on equal inputs producing equal digests, which holds for the
  stand-in exactly as it does for the real digest.
* SQLite's text comparison (`memcmp` on UTF-8 bytes) is modelled by
  `strLtB`, byte order and character order agreeing on ASCII.
* Timestamps are the canonical strings the connectors emit
  (`YYYY-MM-DDTHH:MM:SSZ`, UTC, second precision); on these, Python
  `datetime` comparison agrees with the string comparison `strLtB`.
* `uuid4()` identifiers are modelled as ordinary string fields supplied with
  the input (the claims never rely on their randomness).
* Fallible code (`try`/`except`, records skipped on bad shape) becomes
  `Except`/`Option`.
-/

/-! ### ASCII string helpers (models of Python str methods) -/

/-- Model of Python `str.lower` on the ASCII fragment. -/
def ascii_lower (c : Char) : Char :=
  if 'A' ≤ c && c ≤ 'Z' then Char.ofNat (c.toNat + 32) else c

/-- Characters Python `str.strip` and `str.split()` treat as whitespace
(ASCII fragment). -/
def is_py_space (c : Char) : Bool :=
  c = ' ' || c = '\t' || c = '\n' || c = '\x0d' || c = '\x0b' || c = '\x0c'

/-- Model of Python `str.isalnum` on the ASCII fragment. -/
def is_ascii_alnum (c : Char) : Bool :=
  ('a' ≤ c && c ≤ 'z') || ('A' ≤ c && c ≤ 'Z') || ('0' ≤ c && c ≤ '9')

/-- `[a-z0-9]` test used by `NON_ALNUM_RE` in `connectors/common.py`. -/
def is_az09 (c : Char) : Bool :=
  ('a' ≤ c && c ≤ 'z') || ('0' ≤ c && c ≤ '9')

def strip_list (l : List Char) : List Char :=
  ((l.dropWhile is_py_space).reverse.dropWhile is_py_space).reverse

/-- Model of Python `str.strip()`. -/
def str_strip (s : String) : String := ⟨strip_list s.data⟩

/-- Model of Python `str.lower()`. -/
def str_lower (s : String) : String := ⟨s.data.map ascii_lower⟩

/-- Squeeze runs of spaces down to one space (`keepPrev = true` also drops a
leading run).  Together with the final trim this models
`" ".join(text.split())`, all whitespace having already been replaced by
`' '`. -/
def squeeze_spaces : List Char → Bool → List Char
  | [], _ => []
  | c :: rest, prevSpace =>
    if c = ' ' then
      (if prevSpace then squeeze_spaces rest true else ' ' :: squeeze_spaces rest true)
    else c :: squeeze_spaces rest false

/-- `" ".join(text.split())` for a list whose whitespace is only `' '`. -/
def normalize_words (l : List Char) : List Char :=
  ((squeeze_spaces l true).reverse.dropWhile (fun c => c = ' ')).reverse

/-- Model of `normalize_text` in `backend/app/connectors/common.py`:
lowercase, replace runs outside `[a-z0-9]` with single spaces, collapse
whitespace, trim. -/
def normalize_text (s : String) : String :=
  let lowered := s.data.map ascii_lower
  let cleaned := lowered.map (fun c => if is_az09 c then c else ' ')
  ⟨normalize_words cleaned⟩

/-- Model of `_normalize_text` in `backend/app/data/event_store.py`:
`value.lower().strip()`, then each non-alphanumeric character becomes a
space, then `" ".join(normalized.split())`. -/
def normalize_text_store (s : String) : String :=
  let lowered := strip_list (s.data.map ascii_lower)
  let replaced := lowered.map (fun c => if is_ascii_alnum c then c else ' ')
  ⟨normalize_words replaced⟩

/-- Injective stand-in for `hashlib.sha256(x.encode()).hexdigest()`.
The claims only rely on equal inputs yielding equal digests, which this
stand-in satisfies exactly as the real digest does. -/
def sha256_hex (s : String) : String := s

/-- Model of `text_hash` in `backend/app/connectors/common.py`. -/
def text_hash (s : String) : String := sha256_hex (normalize_text s)

/-- Python containment test `needle in hay` (contiguous substring). -/
def str_contains (hay needle : String) : Bool :=
  decide (needle.data <:+: hay.data)

/-- SQLite text comparison `a < b` (byte-wise `memcmp`; on the ASCII strings
stored here, byte order and character order coincide). -/
def strLtB : List Char → List Char → Bool
  | [], [] => false
  | [], _ :: _ => true
  | _ :: _, [] => false
  | a :: as, b :: bs => if a < b then true else if b < a then false else strLtB as bs

/-- SQL predicate `a >= b` on text columns, as SQLite evaluates it. -/
def sqlite_ge (a b : String) : Bool := !(strLtB a.data b.data)

/-! ### The domain model (`backend/app/domain/models.py`) -/

/-- Model of `WorldEvent`.  `lat`/`lon` (floats) are abstracted to optional
integers and the `raw` payload to its serialized text; no claim depends on
either.  `severity`/`confidence` are the validated integers in `[0, 100]`. -/
structure WorldEvent where
  id : String
  external_id : String
  source : String
  source_url : String
  title : String
  summary : String
  body_snippet : String
  category : String
  tags : List String
  country : String
  region : String
  lat : Option Int
  lon : Option Int
  geohash : Option String
  severity : Nat
  confidence : Nat
  occurred_at : String
  started_at : Option String
  ingested_at : String
  updated_at : String
  cluster_id : String
  raw_json : String
deriving DecidableEq, Repr

/-- Model of `AlertRule`. -/
structure AlertRule where
  id : String
  name : String
  enabled : Bool
  countries : List String
  regions : List String
  categories : List String
  keywords : List String
  severity_threshold : Nat
  spike_detection : Bool
  action_in_app : Bool
  action_webhook_url : Option String
  action_slack_webhook : Option String
  created_at : String
  updated_at : String
deriving DecidableEq, Repr

/-! ### Event store: dedupe hashing and `upsert_events` -/

/-- One row of the `events` table. -/
structure EventRow where
  id : String
  external_id : String
  source : String
  source_url : String
  title : String
  summary : String
  body_snippet : String
  category : String
  tags : List String
  country : String
  region : String
  lat : Option Int
  lon : Option Int
  geohash : Option String
  severity : Nat
  confidence : Nat
  occurred_at : String
  started_at : Option String
  ingested_at : String
  updated_at : String
  cluster_id : String
  raw_json : String
  dedupe_hash : String
  title_hash : String
  url_norm : String
  bucket_hour : String
deriving DecidableEq, Repr

structure EventHashes where
  dedupe_hash : String
  title_hash : String
  url_norm : String
  bucket_hour : String
deriving DecidableEq, Repr

/-- `_iso_to_datetime(value).strftime("%Y-%m-%dT%H")` restricted to the
canonical `YYYY-MM-DDTHH:MM:SSZ` timestamps every connector emits, on which
it returns the first 13 characters. -/
def bucket_hour_of (occurred_at : String) : String := ⟨occurred_at.data.take 13⟩

/-- Model of `EventStore._event_hashes`. -/
def event_hashes (e : WorldEvent) : EventHashes :=
  let title_norm := normalize_text_store e.title
  let title_hash := sha256_hex title_norm
  let url_norm := str_lower (str_strip e.source_url)
  let bucket := bucket_hour_of e.occurred_at
  let dedupe_base :=
    if url_norm ≠ "" then ("url:") ++ url_norm
    else ("title:") ++ title_norm ++ "|country:" ++ normalize_text_store e.country
          ++ "|bucket:" ++ bucket
  { dedupe_hash := sha256_hex dedupe_base
    title_hash := title_hash
    url_norm := url_norm
    bucket_hour := bucket }

/-- The freshly inserted row of the `INSERT` branch of `upsert_events`. -/
def insert_row (e : WorldEvent) : EventRow :=
  let h := event_hashes e
  { id := e.id
    external_id := e.external_id
    source := e.source
    source_url := e.source_url
    title := e.title
    summary := e.summary
    body_snippet := e.body_snippet
    category := e.category
    tags := e.tags
    country := e.country
    region := e.region
    lat := e.lat
    lon := e.lon
    geohash := e.geohash
    severity := e.severity
    confidence := e.confidence
    occurred_at := e.occurred_at
    started_at := e.started_at
    ingested_at := e.ingested_at
    updated_at := e.updated_at
    cluster_id := e.cluster_id
    raw_json := e.raw_json
    dedupe_hash := h.dedupe_hash
    title_hash := h.title_hash
    url_norm := h.url_norm
    bucket_hour := h.bucket_hour }

/-- The `ON CONFLICT(dedupe_hash) DO UPDATE SET ...` branch: every column in
the `SET` list takes the excluded (incoming) value; `id`, `external_id` and
the conflict target `dedupe_hash` are not in the list and keep the stored
row's values. -/
def update_row (r : EventRow) (e : WorldEvent) : EventRow :=
  let h := event_hashes e
  { r with
    source := e.source
    source_url := e.source_url
    title := e.title
    summary := e.summary
    body_snippet := e.body_snippet
    category := e.category
    tags := e.tags
    country := e.country
    region := e.region
    lat := e.lat
    lon := e.lon
    geohash := e.geohash
    severity := e.severity
    confidence := e.confidence
    occurred_at := e.occurred_at
    started_at := e.started_at
    ingested_at := e.ingested_at
    updated_at := e.updated_at
    cluster_id := e.cluster_id
    raw_json := e.raw_json
    title_hash := h.title_hash
    url_norm := h.url_norm
    bucket_hour := h.bucket_hour }

/-- One `INSERT ... ON CONFLICT(dedupe_hash) DO UPDATE` statement of the
`upsert_events` loop.  (Event ids are fresh `uuid4` values, so the only
conflict that can fire is the one on `dedupe_hash`.) -/
def upsert_one (rows : List EventRow) (e : WorldEvent) : List EventRow :=
  if rows.any (fun r => r.dedupe_hash = (event_hashes e).dedupe_hash) then
    rows.map (fun r =>
      if r.dedupe_hash = (event_hashes e).dedupe_hash then update_row r e else r)
  else rows ++ [insert_row e]

/-- Model of `EventStore.upsert_events`: runs the upsert statement for each
candidate in order and returns `len(events)` (the early `if not events:
return 0` agrees with the length of the empty list). -/
def upsert_events (rows : List EventRow) (events : List WorldEvent) :
    List EventRow × Nat :=
  (events.foldl upsert_one rows, events.length)

/-- The dedupe identity exactly as the specification words it: equal
non-empty normalized URL, or, with both URLs empty, equal normalized title,
normalized country and occurrence hour. -/
def same_dedupe_identity (e₁ e₂ : WorldEvent) : Prop :=
  ((event_hashes e₁).url_norm ≠ "" ∧ (event_hashes e₁).url_norm = (event_hashes e₂).url_norm)
  ∨ ((event_hashes e₁).url_norm = "" ∧ (event_hashes e₂).url_norm = ""
      ∧ normalize_text_store e₁.title = normalize_text_store e₂.title
      ∧ normalize_text_store e₁.country = normalize_text_store e₂.country
      ∧ bucket_hour_of e₁.occurred_at = bucket_hour_of e₂.occurred_at)

/-- A seismic-style candidate used to instantiate the theorems on concrete
input. -/
def sample_event_a : WorldEvent :=
  { id := "id-first"
    external_id := "usgs-1"
    source := "USGS Earthquakes"
    source_url := "https://example.com/eq/1"
    title := "M 5.0 - Japan"
    summary := "10 km SSW of Tokyo"
    body_snippet := "Magnitude 5"
    category := "disaster"
    tags := ["earthquake"]
    country := "Japan"
    region := "Global"
    lat := none
    lon := none
    geohash := none
    severity := 70
    confidence := 88
    occurred_at := "2026-02-20T10:00:00Z"
    started_at := some ("2026-02-20T10:00:00Z")
    ingested_at := "2026-02-20T11:00:00Z"
    updated_at := "2026-02-20T11:00:00Z"
    cluster_id := "cluster-a"
    raw_json := "{}" }

/-- A second candidate with the same source URL (same dedupe identity) but
different mutable fields. -/
def sample_event_b : WorldEvent :=
  { sample_event_a with
    id := "id-second"
    external_id := "usgs-2"
    title := "M 5.1 - Japan (revised)"
    severity := 74
    ingested_at := "2026-02-20T12:00:00Z"
    updated_at := "2026-02-20T12:00:00Z" }

/-- The stored row holding `sample_event_a` (ingested 2026-02-20T11:00:00Z). -/
def stored_row_a : EventRow := insert_row sample_event_a

/-- A re-delivery of the same logical event whose `ingested_at` is older
than the stored one. -/
def sample_event_stale : WorldEvent :=
  { sample_event_a with
    id := "id-stale"
    ingested_at := "2025-01-01T00:00:00Z"
    updated_at := "2025-01-01T00:00:00Z" }

/-! ### Alert events (`add_alert_event`, `update_alert_event_status`) -/

/-- One row of the `alert_events` table (`UNIQUE(rule_id, event_id)`,
primary key `id`). -/
structure AlertEventRow where
  id : String
  rule_id : String
  event_id : String
  status : String
  fired_at : String
  acked_at : Option String
  resolved_at : Option String
deriving DecidableEq, Repr

/-- Model of `EventStore.add_alert_event`: `INSERT OR IGNORE` suppresses the
insert when any uniqueness constraint (primary key `id`, or the
`(rule_id, event_id)` pair) would be violated; the returned flag is
`cursor.rowcount > 0`, i.e. whether a row was actually inserted. -/
def add_alert_event (rows : List AlertEventRow) (ae : AlertEventRow) :
    List AlertEventRow × Bool :=
  if rows.any (fun r =>
      r.id = ae.id || (r.rule_id = ae.rule_id && r.event_id = ae.event_id)) then
    (rows, false)
  else (rows ++ [ae], true)

/-- The uniqueness invariant enforced by `UNIQUE(rule_id, event_id)`. -/
def pair_unique (rows : List AlertEventRow) : Prop :=
  rows.Pairwise (fun a b => ¬(a.rule_id = b.rule_id ∧ a.event_id = b.event_id))

/-- Model of `EventStore.update_alert_event_status`.  `now` stands for
`utc_now_iso()`; the update row mirrors the two `SET` clauses (`acked`
overwrites `acked_at`; `resolved` sets `resolved_at` and
`COALESCE(acked_at, :resolved_at)`), and the returned flag is
`cursor.rowcount > 0` (a row with that id matched the `WHERE`). -/
def update_alert_event_status (rows : List AlertEventRow)
    (alert_event_id status now : String) : List AlertEventRow × Bool :=
  let safe_status := str_lower (str_strip status)
  if safe_status ≠ "acked" ∧ safe_status ≠ "resolved" then (rows, false)
  else
    (rows.map (fun r =>
      if r.id = alert_event_id then
        (if safe_status = "acked" then
          { r with status := safe_status, acked_at := some now }
        else
          { r with
            status := safe_status
            resolved_at := some now
            acked_at := some (r.acked_at.getD now) })
      else r),
      rows.any (fun r => r.id = alert_event_id))

/-! ### Rule evaluation (`_rule_matches`, `_evaluate_rules`) -/

/-- One entry of the `pulse()` result (the evaluator reads only `country`
and `delta_ratio`; the float ratio is modelled as a rational). -/
structure PulseEntry where
  country : String
  recent_count : Nat
  baseline_count : Nat
  delta_ratio : ℚ
deriving DecidableEq, Repr

/-- `country_deltas.get(event.country, 0.0)` — the dict built from the pulse
list (whose countries are distinct, so first match is the entry). -/
def pulse_delta (pulse : List PulseEntry) (country : String) : ℚ :=
  match pulse.find? (fun p => p.country = country) with
  | some p => p.delta_ratio
  | none => 0

/-- Model of `EventIngestionService._rule_matches`, branch for branch. -/
def rule_matches (pulse : List PulseEntry) (rule : AlertRule) (e : WorldEvent) :
    Bool :=
  if e.severity < rule.severity_threshold then false
  else if !rule.countries.isEmpty && !(rule.countries.contains e.country) then false
  else if !rule.regions.isEmpty && !(rule.regions.contains e.region) then false
  else if !rule.categories.isEmpty && !(rule.categories.contains e.category) then false
  else if !rule.keywords.isEmpty && !(rule.keywords.any (fun w =>
      str_contains (normalize_text
        (e.title ++ " " ++ e.summary ++ " " ++ e.body_snippet))
        (normalize_text w))) then false
  else if rule.spike_detection && pulse_delta pulse e.country < 1 then false
  else true

/-- The body of the inner `for event in events` loop of `_evaluate_rules`:
on a match, insert an `AlertEvent(rule_id, event_id, status="new")` (fresh
`uuid4` id, `fired_at = utc_now_iso()`) and count it only when
`add_alert_event` reports a created row.  The accumulator carries
(rows, fired, uuid counter). -/
def evaluate_one (pulse : List PulseEntry) (fresh_id : Nat → String)
    (now : String) (rule : AlertRule) (acc : List AlertEventRow × Nat × Nat)
    (e : WorldEvent) : List AlertEventRow × Nat × Nat :=
  if rule_matches pulse rule e then
    let res := add_alert_event acc.1
      { id := fresh_id acc.2.2, rule_id := rule.id, event_id := e.id,
        status := "new", fired_at := now, acked_at := none, resolved_at := none }
    (res.1, (if res.2 then acc.2.1 + 1 else acc.2.1), acc.2.2 + 1)
  else acc

/-- The `for rule in rules` loop: disabled rules are skipped. -/
def evaluate_rule_step (pulse : List PulseEntry) (fresh_id : Nat → String)
    (now : String) (events : List WorldEvent)
    (acc : List AlertEventRow × Nat × Nat) (rule : AlertRule) :
    List AlertEventRow × Nat × Nat :=
  if !rule.enabled then acc
  else events.foldl (evaluate_one pulse fresh_id now rule) acc

/-- Model of `EventIngestionService._evaluate_rules`: early return 0 on an
empty batch or an empty rule set, otherwise the nested loops; returns the
alert-event table and the `fired` count. -/
def evaluate_rules (pulse : List PulseEntry) (fresh_id : Nat → String)
    (now : String) (st : List AlertEventRow) (rules : List AlertRule)
    (events : List WorldEvent) : List AlertEventRow × Nat :=
  if events.isEmpty then (st, 0)
  else if rules.isEmpty then (st, 0)
  else
    let res := rules.foldl (evaluate_rule_step pulse fresh_id now events) (st, 0, 0)
    (res.1, res.2.1)

/-- A concrete alert-event row and a re-fired duplicate of the same
`(rule_id, event_id)` pair. -/
def sample_alert_row : AlertEventRow :=
  { id := "ae-1", rule_id := "rule-1", event_id := "ev-1", status := "new",
    fired_at := "2026-02-20T10:00:00Z", acked_at := none, resolved_at := none }

def sample_alert_dup : AlertEventRow :=
  { sample_alert_row with id := "ae-2", fired_at := "2026-02-20T10:30:00Z" }

/-- A resolved alert-event row. -/
def resolved_alert_row : AlertEventRow :=
  { id := "ae-9", rule_id := "rule-1", event_id := "ev-9", status := "resolved",
    fired_at := "2026-02-20T10:00:00Z", acked_at := some ("2026-02-20T10:05:00Z"),
    resolved_at := some ("2026-02-20T10:05:00Z") }

/-- A concrete rule exercising threshold, country allow-list and keywords. -/
def sample_rule : AlertRule :=
  { id := "rule-1", name := "High Severity Monitor", enabled := true,
    countries := ["Japan"], regions := [], categories := ["disaster"],
    keywords := ["japan", "flood"], severity_threshold := 50,
    spike_detection := false, action_in_app := true,
    action_webhook_url := none, action_slack_webhook := none,
    created_at := "2026-02-20T09:00:00Z", updated_at := "2026-02-20T09:00:00Z" }

/-! ### Classifier (`connectors/common.py`) -/

/-- `text[:n]` on Python strings. -/
def str_take (s : String) (n : Nat) : String := ⟨s.data.take n⟩

def CATEGORY_RULES : List (String × List String) :=
  [("conflict", ["war", "battle", "attack", "strike", "military", "troops"]),
   ("sanctions", ["sanctions", "embargo", "asset freeze", "export controls"]),
   ("cyber", ["cyber", "malware", "ransomware", "breach", "hack", "ddos"]),
   ("disaster", ["earthquake", "flood", "wildfire", "hurricane", "storm", "volcano"]),
   ("markets", ["market", "stocks", "bond", "yield", "oil", "gas", "gold", "dxy"]),
   ("diplomacy", ["summit", "talks", "foreign minister", "un", "nato", "treaty"])]

/-- Model of `infer_category`: first keyword rule (in table order) whose
space-padded normalized keyword occurs in the space-padded normalized
text. -/
def infer_category (text : String) (fallback : String) : String :=
  let normalized := " " ++ normalize_text text ++ " "
  match CATEGORY_RULES.findSome? (fun cr => cr.2.findSome? (fun kw =>
    let token := normalize_text kw
    if token ≠ "" ∧ str_contains normalized (" " ++ token ++ " ") = true
    then some cr.1 else none)) with
  | some c => c
  | none => fallback

/-- The base-score table of `infer_severity` (`.get(category, 34)`). -/
def severity_base (category : String) : Nat :=
  if category = "conflict" then 78
  else if category = "disaster" then 72
  else if category = "sanctions" then 68
  else if category = "cyber" then 60
  else if category = "diplomacy" then 45
  else if category = "markets" then 42
  else if category = "other" then 34
  else 34

def severity_amplifiers : List String :=
  ["major", "dead", "killed", "urgent", "emergency", "warning", "missile",
   "ceasefire", "default"]

/-- Model of `infer_severity`: base score plus 4 per amplifier hit, clamped
to `[0, 100]`. -/
def infer_severity (category : String) (text : String) : Nat :=
  let normalized := " " ++ normalize_text text ++ " "
  let score := severity_amplifiers.foldl (fun sc token =>
    let norm_token := normalize_text token
    if norm_token ≠ "" ∧ str_contains normalized (" " ++ norm_token ++ " ") = true
    then sc + 4 else sc) (severity_base category)
  max 0 (min 100 score)

/-! ### Connectors (`connectors/{usgs,gdelt,rss}.py`) -/

/-- Model of `ConnectorResult` in `connectors/base.py`. -/
structure ConnectorResult where
  name : String
  events : List WorldEvent
  error : Option String
  duration_ms : Nat
deriving DecidableEq, Repr

/-- The fields of one GeoJSON feature that `UsgsConnector._to_event` reads.
`occurred_at` stands for the canonical `_format_epoch_ms(properties.time)`
string, `fresh_id` for the `uuid4` the constructed event receives, and the
float magnitude is abstracted to an integer. -/
structure UsgsFeature where
  feature_id : String
  title : String
  place : String
  url : String
  magnitude : Option Int
  occurred_at : String
  lat : Option Int
  lon : Option Int
  fresh_id : String
  raw_json : String
deriving DecidableEq, Repr

/-- Python `text.split(c)`. -/
def split_on_char (c : Char) : List Char → List (List Char)
  | [] => [[]]
  | a :: rest =>
    match split_on_char c rest with
    | [] => [[]]
    | h :: t => if a = c then [] :: h :: t else (a :: h) :: t

/-- Model of `UsgsConnector._country_region_from_place`. -/
def usgs_country_region (place : String) : String × String :=
  let text := str_strip place
  if text = "" then ("Global", "Global")
  else if text.data.contains ',' then
    let candidate := str_strip ⟨(split_on_char ',' text.data).getLastD []⟩
    if candidate ≠ "" then (candidate, "Global") else ("Global", "Global")
  else ("Global", "Global")

/-- Model of `UsgsConnector._to_event`: skips features without id or title,
blends the magnitude into the severity, and keeps the record whatever its
occurrence time (there is no cutoff test in this connector). -/
def usgs_to_event (now : String) (f : UsgsFeature) : Option WorldEvent :=
  let external_id := str_strip f.feature_id
  if external_id = "" then none
  else
    let title := str_strip f.title
    if title = "" then none
    else
      let place := str_strip f.place
      let url := if str_strip f.url = "" then ("https://earthquake.usgs.gov/")
        else str_strip f.url
      let occurred_at := f.occurred_at
      let cr := usgs_country_region place
      let text := title ++ " " ++ place
      let base_severity := infer_severity ("disaster") text
      let severity := match f.magnitude with
        | some m => (max (base_severity : Int) (min 100 (45 + m * 10))).toNat
        | none => base_severity
      some
        { id := f.fresh_id
          external_id := external_id
          source := "USGS Earthquakes"
          source_url := url
          title := title
          summary := (if place = "" then ("Earthquake update") else place)
          body_snippet := (match f.magnitude with
            | some m => "Magnitude " ++ toString m
            | none => "")
          category := "disaster"
          tags := ["earthquake", (match f.magnitude with
            | some m => "mag:" ++ toString m
            | none => "mag:na")]
          country := cr.1
          region := cr.2
          lat := f.lat
          lon := f.lon
          geohash := none
          severity := severity
          confidence := 88
          occurred_at := occurred_at
          started_at := some occurred_at
          ingested_at := now
          updated_at := now
          cluster_id := str_take (text_hash ("usgs|" ++ normalize_text place
            ++ "|" ++ str_take occurred_at 13)) 20
          raw_json := f.raw_json }

/-- Model of `UsgsConnector.fetch`: the whole body runs inside one
`try/except`; any upstream failure becomes `error = str(exc)` with zero
events, success maps `_to_event` over the payload's features. -/
def usgs_fetch (now : String) (payload : Except String (List UsgsFeature))
    (duration_ms : Nat) : ConnectorResult :=
  match payload with
  | .error exc =>
      { name := "USGS Earthquakes", events := [], error := some exc,
        duration_ms := duration_ms }
  | .ok features =>
      { name := "USGS Earthquakes",
        events := features.filterMap (usgs_to_event now), error := none,
        duration_ms := duration_ms }

/-- The fields of one GDELT article that `GdeltConnector._to_event` reads;
`seendate_parsed` stands for the canonical `parse_datetime(seendate)`
output. -/
structure GdeltArticle where
  title : String
  url : String
  url_mobile : String
  seendate_parsed : String
  snippet : String
  domain : String
  sourcecountry : String
  fresh_id : String
  raw_json : String
deriving DecidableEq, Repr

/-- Model of `GdeltConnector._to_event`: drops records without title or URL
and records strictly older than the cutoff (`_parse_iso(occurred_at) <
cutoff`, datetime order realised as `strLtB` on canonical strings). -/
def gdelt_to_event (now cutoff : String) (a : GdeltArticle) :
    Option WorldEvent :=
  let title := str_strip a.title
  let url := str_strip a.url
  if title = "" ∨ url = "" then none
  else
    let occurred_at := a.seendate_parsed
    if strLtB occurred_at.data cutoff.data then none
    else
      let source := if str_strip a.sourcecountry = "" then ("GDELT")
        else str_strip a.sourcecountry
      let source_name := if str_strip a.domain = "" then ("GDELT")
        else str_strip a.domain
      let summary := str_strip a.snippet
      let body := title ++ " " ++ summary ++ " " ++ source_name
      let category := infer_category body ("other")
      some
        { id := a.fresh_id
          external_id := (if str_strip a.url_mobile = "" then url
            else str_strip a.url_mobile)
          source := "GDELT:" ++ source_name
          source_url := url
          title := title
          summary := (if summary = "" then ("GDELT article") else summary)
          body_snippet := str_take summary 240
          category := category
          tags := ["gdelt", str_lower source]
          country := (if source = "" then ("Global") else source)
          region := "Global"
          lat := none
          lon := none
          geohash := none
          severity := infer_severity category body
          confidence := 64
          occurred_at := occurred_at
          started_at := some occurred_at
          ingested_at := now
          updated_at := now
          cluster_id := str_take (text_hash ("gdelt|" ++ title ++ "|"
            ++ str_take occurred_at 13)) 20
          raw_json := a.raw_json }

/-- Model of `GdeltConnector.fetch`: one `try/except` around the whole body;
`cutoff` is `now - timedelta(hours=max(1, since_hours))` computed before the
request. -/
def gdelt_fetch (now cutoff : String)
    (payload : Except String (List GdeltArticle)) (duration_ms : Nat) :
    ConnectorResult :=
  match payload with
  | .error exc =>
      { name := "GDELT", events := [], error := some exc,
        duration_ms := duration_ms }
  | .ok articles =>
      { name := "GDELT",
        events := articles.filterMap (gdelt_to_event now cutoff),
        error := none, duration_ms := duration_ms }

/-- One configured RSS source (name and optional category hint). -/
structure RssSource where
  name : String
  category_hint : Option String
deriving DecidableEq, Repr

/-- One parsed `item`/`entry` node: extracted title, link, summary and the
canonical `_parse_pub_datetime(published_raw)` output. -/
structure RssItem where
  title : String
  link : String
  summary : String
  published_parsed : String
  fresh_id : String
deriving DecidableEq, Repr

/-- The dictionary returned by `GeoResolver.resolve` (an external,
data-backed collaborator, passed in as a function). -/
structure GeoHit where
  country : String
  region : String
  lat : Option Int
  lon : Option Int

/-- Model of the per-item body of `RssConnector._parse_feed`: drop items
without title or link, drop items strictly older than the cutoff, classify
and geo-resolve the rest. -/
def rss_item_to_event (now cutoff : String) (resolve : String → GeoHit)
    (src : RssSource) (item : RssItem) : Option WorldEvent :=
  if item.title = "" ∨ item.link = "" then none
  else
    let occurred_at := item.published_parsed
    if strLtB occurred_at.data cutoff.data then none
    else
      let summary := item.summary
      let body := item.title ++ " " ++ summary ++ " " ++ src.name
      let category := match src.category_hint with
        | some hint => hint
        | none => infer_category body ("other")
      let geo := resolve body
      some
        { id := item.fresh_id
          external_id := src.name ++ ":" ++ item.link
          source := src.name
          source_url := item.link
          title := item.title
          summary := str_take summary 240
          body_snippet := str_take summary 320
          category := category
          tags := ["rss", ⟨(str_lower src.name).data.map
            (fun c => if c = ' ' then '-' else c)⟩]
          country := (if geo.country = "" then ("Global") else geo.country)
          region := (if geo.region = "" then ("Global") else geo.region)
          lat := geo.lat
          lon := geo.lon
          geohash := none
          severity := infer_severity category body
          confidence := 74
          occurred_at := occurred_at
          started_at := some occurred_at
          ingested_at := now
          updated_at := now
          cluster_id := str_take (text_hash ("rss|" ++ normalize_text item.title
            ++ "|" ++ geo.country ++ "|" ++ str_take occurred_at 13)) 20
          raw_json := "{}" }

/-- Model of `RssConnector._parse_feed`: the loop appends matching items and
breaks once `max_items_per_source` are collected, i.e. it takes the first
`max_items` survivors. -/
def rss_parse_feed (now cutoff : String) (resolve : String → GeoHit)
    (max_items : Nat) (src : RssSource) (items : List RssItem) :
    List WorldEvent :=
  (items.filterMap (rss_item_to_event now cutoff resolve src)).take max_items

/-- Model of `RssConnector._fetch_source`: try the source's URLs in order;
a URL that parses into a non-empty event list wins (no error); a raising
URL appends its formatted message (modelled as the `Except` payload) to the
source's error list; a URL yielding zero events is simply skipped. -/
def rss_fetch_source (now cutoff : String) (resolve : String → GeoHit)
    (max_items : Nat) (src : RssSource) :
    List (Except String (List RssItem)) → List String →
    List WorldEvent × Option String
  | [], errs =>
      ([], if errs.isEmpty then none else some (String.intercalate ("; ") errs))
  | outcome :: rest, errs =>
    match outcome with
    | .error msg =>
        rss_fetch_source now cutoff resolve max_items src rest (errs ++ [msg])
    | .ok items =>
        let events := rss_parse_feed now cutoff resolve max_items src items
        if events.isEmpty then
          rss_fetch_source now cutoff resolve max_items src rest errs
        else (events, none)

/-- The per-source accumulation step of `RssConnector.fetch`'s loop:
extend the event list with the source's events and append the source's
error string when it produced one. -/
def rss_fold_step (now cutoff : String) (resolve : String → GeoHit)
    (max_items : Nat) (acc : List WorldEvent × List String)
    (sp : RssSource × List (Except String (List RssItem))) :
    List WorldEvent × List String :=
  let res := rss_fetch_source now cutoff resolve max_items sp.1 sp.2 []
  (acc.1 ++ res.1, match res.2 with
    | some e => acc.2 ++ [e]
    | none => acc.2)

/-- Model of `RssConnector.fetch`: accumulate every source's events and
collect the per-source error strings; the result's `error` is their `"; "`
join when any source failed.  Events from healthy sources are returned even
when other sources fail. -/
def rss_fetch (now cutoff : String) (resolve : String → GeoHit)
    (max_items : Nat)
    (sources : List (RssSource × List (Except String (List RssItem))))
    (duration_ms : Nat) : ConnectorResult :=
  let folded := sources.foldl (rss_fold_step now cutoff resolve max_items) ([], [])
  { name := "RSS"
    events := folded.1
    error := if folded.2.isEmpty then none
      else some (String.intercalate ("; ") folded.2)
    duration_ms := duration_ms }

/-- A healthy RSS item (title + link present, recent timestamp). -/
def rss_ok_item : RssItem :=
  { title := "Summit talks continue in Nairobi", link := "https://example.com/a",
    summary := "Diplomatic updates from Kenya",
    published_parsed := "2026-02-20T10:00:00Z", fresh_id := "rss-ev-1" }

def rss_src_ok : RssSource :=
  { name := "Test Source", category_hint := some ("diplomacy") }

def rss_src_bad : RssSource :=
  { name := "Broken Source", category_hint := none }

/-- A geo resolver stub for concrete inputs. -/
def sample_resolve : String → GeoHit := fun _ =>
  { country := "Kenya", region := "Africa", lat := none, lon := none }

/-- A USGS feature much older than any recent cutoff. -/
def stale_usgs_feature : UsgsFeature :=
  { feature_id := "us1000abcd", title := "M 4.5 - old quake",
    place := "near Tokyo, Japan", url := "https://example.com/eq/old",
    magnitude := some 4, occurred_at := "2020-01-01T00:00:00Z",
    lat := none, lon := none, fresh_id := "usgs-ev-old", raw_json := "{}" }

/-- A GDELT article inside the window. -/
def sample_gdelt_article : GdeltArticle :=
  { title := "Ceasefire talks in Geneva", url := "https://example.com/g1",
    url_mobile := "", seendate_parsed := "2026-02-20T09:00:00Z",
    snippet := "Diplomats meet", domain := "example.com", sourcecountry := "CH",
    fresh_id := "gdelt-ev-1", raw_json := "{}" }

/-! ### Timestamp rendering and the `list_events` window (claim C8) -/

/-- One decimal digit character. -/
def digit_char (n : Nat) : Char := Char.ofNat (48 + n)

/-- Two-digit zero-padded rendering (`%02d`). -/
def pad2 (n : Nat) : List Char := [digit_char (n / 10 % 10), digit_char (n % 10)]

/-- Four-digit zero-padded year (`%04d`), as two two-digit halves. -/
def pad4 (n : Nat) : List Char := pad2 (n / 100) ++ pad2 (n % 100)

/-- Six-digit zero-padded microsecond field. -/
def pad6 (n : Nat) : List Char :=
  pad2 (n / 10000) ++ pad2 (n / 100 % 100) ++ pad2 (n % 100)

/-- A UTC wall-clock instant at second precision. -/
structure DT where
  year : Nat
  month : Nat
  day : Nat
  hour : Nat
  minute : Nat
  second : Nat
deriving DecidableEq, Repr

def DT.valid (c : DT) : Prop :=
  c.year ≤ 9999 ∧ 1 ≤ c.month ∧ c.month ≤ 12 ∧ 1 ≤ c.day ∧ c.day ≤ 31
  ∧ c.hour ≤ 23 ∧ c.minute ≤ 59 ∧ c.second ≤ 59

/-- The 19-character `YYYY-MM-DDTHH:MM:SS` prefix shared by every
`isoformat()` output of an aware UTC datetime. -/
def dt_stamp (c : DT) : List Char :=
  pad4 c.year ++ ('-' :: (pad2 c.month ++ ('-' :: (pad2 c.day ++ ('T' ::
    (pad2 c.hour ++ (':' :: (pad2 c.minute ++ (':' :: pad2 c.second)))))))))

/-- The stored-timestamp format: second precision, `Z` suffix
(`.replace(microsecond=0).isoformat().replace("+00:00", "Z")`). -/
def iso_z (c : DT) : String := ⟨dt_stamp c ++ ['Z']⟩

/-- The `list_events` cutoff string:
`(_utc_now() - timedelta(...)).isoformat().replace("+00:00", "Z")` keeps the
microsecond field, printed as `.NNNNNN` when non-zero and omitted when
zero. -/
def iso_micro_z (c : DT) (micro : Nat) : String :=
  if micro = 0 then iso_z c
  else ⟨dt_stamp c ++ ('.' :: (pad6 micro ++ ['Z']))⟩

/-- Chronological order on valid second-precision instants: for components
in calendar range this lexicographic field order is exactly "strictly
earlier"; in particular "one second older" implies it. -/
def DT.lexLt (a b : DT) : Prop :=
  a.year < b.year
  ∨ (a.year = b.year ∧ (a.month < b.month
  ∨ (a.month = b.month ∧ (a.day < b.day
  ∨ (a.day = b.day ∧ (a.hour < b.hour
  ∨ (a.hour = b.hour ∧ (a.minute < b.minute
  ∨ (a.minute = b.minute ∧ a.second < b.second)))))))))

/-- The `WHERE occurred_at >= :cutoff` filter of `EventStore.list_events`
(the other filters and the ordering are orthogonal to the window claim). -/
def list_events_window (cutoff : String) (rows : List EventRow) :
    List EventRow :=
  rows.filter (fun r => sqlite_ge r.occurred_at cutoff)

/-! ### Single-flight ingestion guard (claim C9)

`EventIngestionService.ingest` brackets its whole body with
`self._run_lock.acquire(blocking=False)` / release: a caller that fails the
non-blocking acquire returns `{"status": "busy", ...}` immediately, having
run no connector and written nothing; a caller that acquires runs the full
pass (returning `"ok"` or, through the `except` arm, `"error"` — both paths
release the lock in `finally`).  Two concurrent callers are modelled as two
threads stepping a shared lock; the non-blocking acquire is a single atomic
test-and-set, exactly the guarantee `threading.Lock` gives. -/

/-- Per-caller control state: before the acquire attempt, inside the pass,
returned busy, or returned with the pass's own result (ok or error). -/
inductive IngestPC where
  | idle
  | runningPass
  | doneBusy
  | doneRun
deriving DecidableEq, Repr

/-- Shared state of two concurrent `ingest()` callers. -/
structure IngestState where
  lock : Bool
  pcA : IngestPC
  pcB : IngestPC
deriving DecidableEq, Repr

/-- Interleaved small-step semantics of the two callers. -/
inductive IngestStep : IngestState → IngestState → Prop
  | acquireA (s : IngestState) : s.pcA = IngestPC.idle → s.lock = false →
      IngestStep s ⟨true, IngestPC.runningPass, s.pcB⟩
  | busyA (s : IngestState) : s.pcA = IngestPC.idle → s.lock = true →
      IngestStep s ⟨s.lock, IngestPC.doneBusy, s.pcB⟩
  | finishA (s : IngestState) : s.pcA = IngestPC.runningPass →
      IngestStep s ⟨false, IngestPC.doneRun, s.pcB⟩
  | acquireB (s : IngestState) : s.pcB = IngestPC.idle → s.lock = false →
      IngestStep s ⟨true, s.pcA, IngestPC.runningPass⟩
  | busyB (s : IngestState) : s.pcB = IngestPC.idle → s.lock = true →
      IngestStep s ⟨s.lock, s.pcA, IngestPC.doneBusy⟩
  | finishB (s : IngestState) : s.pcB = IngestPC.runningPass →
      IngestStep s ⟨false, s.pcA, IngestPC.doneRun⟩

def ingest_init : IngestState := ⟨false, IngestPC.idle, IngestPC.idle⟩

def IngestReachable (s : IngestState) : Prop :=
  Relation.ReflTransGen IngestStep ingest_init s

/-- The inductive invariant: the lock is held exactly while someone is in
the pass, at most one caller is ever in the pass, and a caller got "busy"
only because the other was running (so it cannot have gone busy after the
other already finished, and both cannot end busy). -/
def ingest_inv (s : IngestState) : Prop :=
  (s.lock = true ↔ (s.pcA = IngestPC.runningPass ∨ s.pcB = IngestPC.runningPass))
  ∧ ¬(s.pcA = IngestPC.runningPass ∧ s.pcB = IngestPC.runningPass)
  ∧ (s.pcA = IngestPC.doneBusy →
      s.pcB = IngestPC.runningPass ∨ s.pcB = IngestPC.doneRun)
  ∧ (s.pcB = IngestPC.doneBusy →
      s.pcA = IngestPC.runningPass ∨ s.pcA = IngestPC.doneRun)

/-! ## Theorems -/

theorem same_dedupe_identity_hash {e₁ e₂ : WorldEvent}
    (h : same_dedupe_identity e₁ e₂) :
    (event_hashes e₁).dedupe_hash = (event_hashes e₂).dedupe_hash := by
  rcases h with ⟨hne, hurl⟩ | ⟨h1, h2, ht, hc, hb⟩
  · simp only [event_hashes] at hurl hne ⊢
    rw [if_pos hne, if_pos (hurl ▸ hne), hurl]
  · simp only [event_hashes] at h1 h2 ⊢
    rw [if_neg (by simpa using h1), if_neg (by simpa using h2), ht, hc, hb]

/-! ### Helper lemmas about `upsert_one` / `upsert_events` -/

theorem update_row_dedupe (r : EventRow) (e : WorldEvent) :
    (update_row r e).dedupe_hash = r.dedupe_hash := rfl

theorem update_row_id (r : EventRow) (e : WorldEvent) :
    (update_row r e).id = r.id := rfl

theorem update_row_external_id (r : EventRow) (e : WorldEvent) :
    (update_row r e).external_id = r.external_id := rfl

theorem insert_row_dedupe (e : WorldEvent) :
    (insert_row e).dedupe_hash = (event_hashes e).dedupe_hash := rfl

theorem upsert_one_of_absent (rows : List EventRow) (e : WorldEvent)
    (h : ∀ r ∈ rows, r.dedupe_hash ≠ (event_hashes e).dedupe_hash) :
    upsert_one rows e = rows ++ [insert_row e] := by
  unfold upsert_one
  rw [if_neg]
  simpa [List.any_eq_true] using h

theorem upsert_one_of_present (rows : List EventRow) (e : WorldEvent)
    (h : ∃ r ∈ rows, r.dedupe_hash = (event_hashes e).dedupe_hash) :
    upsert_one rows e = rows.map (fun r =>
      if r.dedupe_hash = (event_hashes e).dedupe_hash then update_row r e else r) := by
  unfold upsert_one
  rw [if_pos]
  simpa [List.any_eq_true] using h

theorem upsert_one_length_le (rows : List EventRow) (e : WorldEvent) :
    (upsert_one rows e).length ≤ rows.length + 1 := by
  unfold upsert_one
  split
  · simp
  · simp

theorem length_filter_map_eq {α : Type} (f : α → α) (p : α → Bool) (l : List α)
    (h : ∀ a ∈ l, p (f a) = p a) :
    ((l.map f).filter p).length = (l.filter p).length := by
  induction l with
  | nil => rfl
  | cons a t ih =>
    simp only [List.map_cons, List.filter_cons]
    rw [h a (by simp)]
    cases hpa : p a <;> simp [ih (fun a ha => h a (by simp [ha]))]

/-- The update branch never changes a row's `dedupe_hash`, so the number of
rows carrying any given hash is unchanged by it. -/
theorem upsert_one_filter_hash_of_present (rows : List EventRow) (e : WorldEvent)
    (hpres : ∃ r ∈ rows, r.dedupe_hash = (event_hashes e).dedupe_hash)
    (h : String) :
    ((upsert_one rows e).filter (fun r => r.dedupe_hash = h)).length
      = (rows.filter (fun r => r.dedupe_hash = h)).length := by
  rw [upsert_one_of_present rows e hpres]
  apply length_filter_map_eq
  intro r _
  by_cases hr : r.dedupe_hash = (event_hashes e).dedupe_hash
  · simp [hr, update_row_dedupe]
  · simp [hr]

theorem upsert_one_filter_hash_le (rows : List EventRow) (e : WorldEvent)
    (h : String) (hle : (rows.filter (fun r => r.dedupe_hash = h)).length ≤ 1) :
    ((upsert_one rows e).filter (fun r => r.dedupe_hash = h)).length ≤ 1 := by
  by_cases hpres : ∃ r ∈ rows, r.dedupe_hash = (event_hashes e).dedupe_hash
  · rw [upsert_one_filter_hash_of_present rows e hpres h]
    exact hle
  · push_neg at hpres
    rw [upsert_one_of_absent rows e hpres]
    rw [List.filter_append, List.length_append]
    by_cases hh : (event_hashes e).dedupe_hash = h
    · have : (rows.filter (fun r => r.dedupe_hash = h)).length = 0 := by
        rw [List.length_eq_zero, List.filter_eq_nil_iff]
        intro r hr
        simpa using hh ▸ hpres r hr
      simp [this, insert_row_dedupe, hh]
    · have : (([insert_row e]).filter (fun r => r.dedupe_hash = h)).length = 0 := by
        simp [insert_row_dedupe, hh]
      omega

theorem upsert_one_filter_hash_eq_one (rows : List EventRow) (e : WorldEvent)
    (h : String) (hone : (rows.filter (fun r => r.dedupe_hash = h)).length = 1) :
    ((upsert_one rows e).filter (fun r => r.dedupe_hash = h)).length = 1 := by
  by_cases hpres : ∃ r ∈ rows, r.dedupe_hash = (event_hashes e).dedupe_hash
  · rw [upsert_one_filter_hash_of_present rows e hpres h]
    exact hone
  · push_neg at hpres
    rw [upsert_one_of_absent rows e hpres]
    rw [List.filter_append, List.length_append, hone]
    by_cases hh : (event_hashes e).dedupe_hash = h
    · exfalso
      have : rows.filter (fun r => r.dedupe_hash = h) = [] := by
        rw [List.filter_eq_nil_iff]
        intro r hr
        simpa using hh ▸ hpres r hr
      rw [this] at hone
      simp at hone
    · simp [insert_row_dedupe, hh]

/-- An identity backed by exactly one stored row keeps exactly one stored row
through any batch of upserts. -/
theorem upsert_events_filter_hash_eq_one (rows : List EventRow)
    (es : List WorldEvent) (h : String)
    (hone : (rows.filter (fun r => r.dedupe_hash = h)).length = 1) :
    (((upsert_events rows es).1).filter (fun r => r.dedupe_hash = h)).length = 1 := by
  induction es generalizing rows with
  | nil => exact hone
  | cons e t ih =>
    exact ih (upsert_one rows e) (upsert_one_filter_hash_eq_one rows e h hone)

/-- Upserting a fresh identity and then a second candidate with the same
identity appends exactly one row: the insert of the first write updated
in place by the second. -/
theorem upsert_pair_eq (rows : List EventRow) (e₁ e₂ : WorldEvent)
    (hid : same_dedupe_identity e₁ e₂)
    (habs : ∀ r ∈ rows, r.dedupe_hash ≠ (event_hashes e₁).dedupe_hash) :
    (upsert_events rows [e₁, e₂]).1 = rows ++ [update_row (insert_row e₁) e₂] := by
  have hh := same_dedupe_identity_hash hid
  show upsert_one (upsert_one rows e₁) e₂ = _
  rw [upsert_one_of_absent rows e₁ habs]
  rw [upsert_one_of_present _ e₂
    ⟨insert_row e₁, by simp, by rw [insert_row_dedupe, hh]⟩]
  rw [List.map_append]
  congr 1
  · conv_rhs => rw [← List.map_id rows]
    apply List.map_congr_left
    intro r hr
    rw [if_neg]
    · rfl
    · rw [← hh]
      exact habs r hr
  · simp [insert_row_dedupe, hh]

/-! ### Claim C1 -/

/-- C1: for candidates with the same dedupe identity, upserting both leaves
exactly one stored row; the later write's mutable (updated) columns win and
the row keeps the id assigned by the first write, on this and on every
further upsert of the same identity. -/
theorem upsert_dedupe_identity_collapses (rows : List EventRow)
    (e₁ e₂ : WorldEvent) (hid : same_dedupe_identity e₁ e₂)
    (habs : ∀ r ∈ rows, r.dedupe_hash ≠ (event_hashes e₁).dedupe_hash) :
    (((upsert_events rows [e₁, e₂]).1).filter
        (fun r => r.dedupe_hash = (event_hashes e₁).dedupe_hash)).length = 1
    ∧ ((upsert_events rows [e₁, e₂]).1).length = rows.length + 1
    ∧ (∀ r ∈ (upsert_events rows [e₁, e₂]).1,
        r.dedupe_hash = (event_hashes e₁).dedupe_hash →
          r.id = e₁.id ∧ r.source = e₂.source ∧ r.source_url = e₂.source_url
          ∧ r.title = e₂.title ∧ r.summary = e₂.summary
          ∧ r.body_snippet = e₂.body_snippet ∧ r.category = e₂.category
          ∧ r.tags = e₂.tags ∧ r.country = e₂.country ∧ r.region = e₂.region
          ∧ r.lat = e₂.lat ∧ r.lon = e₂.lon ∧ r.geohash = e₂.geohash
          ∧ r.severity = e₂.severity ∧ r.confidence = e₂.confidence
          ∧ r.occurred_at = e₂.occurred_at ∧ r.started_at = e₂.started_at
          ∧ r.ingested_at = e₂.ingested_at ∧ r.updated_at = e₂.updated_at
          ∧ r.cluster_id = e₂.cluster_id ∧ r.raw_json = e₂.raw_json)
    ∧ (∀ e₃, same_dedupe_identity e₁ e₃ →
        ∀ r ∈ upsert_one ((upsert_events rows [e₁, e₂]).1) e₃,
          r.dedupe_hash = (event_hashes e₁).dedupe_hash → r.id = e₁.id) := by
  have hpair := upsert_pair_eq rows e₁ e₂ hid habs
  have h0 : rows.filter
      (fun r => r.dedupe_hash = (event_hashes e₁).dedupe_hash) = [] := by
    rw [List.filter_eq_nil_iff]
    intro r hr
    simpa using habs r hr
  refine ⟨?_, ?_, ?_, ?_⟩
  · rw [hpair, List.filter_append, h0]
    simp [update_row_dedupe, insert_row_dedupe]
  · rw [hpair]
    simp
  · rw [hpair]
    intro r hr hhash
    rcases List.mem_append.mp hr with hmem | hmem
    · exact absurd hhash (habs r hmem)
    · have : r = update_row (insert_row e₁) e₂ := by simpa using hmem
      subst this
      exact ⟨rfl, rfl, rfl, rfl, rfl, rfl, rfl, rfl, rfl, rfl, rfl, rfl, rfl,
        rfl, rfl, rfl, rfl, rfl, rfl, rfl, rfl⟩
  · intro e₃ hid₃ r hr hhash
    have hh₃ := same_dedupe_identity_hash hid₃
    rw [hpair] at hr
    have hx : (update_row (insert_row e₁) e₂).dedupe_hash
        = (event_hashes e₃).dedupe_hash := by
      rw [update_row_dedupe, insert_row_dedupe, hh₃]
    rw [upsert_one_of_present _ e₃
      ⟨update_row (insert_row e₁) e₂, by simp, hx⟩] at hr
    rcases List.mem_map.mp hr with ⟨r', hr', rfl⟩
    have hid' : (if r'.dedupe_hash = (event_hashes e₃).dedupe_hash
        then update_row r' e₃ else r').id = r'.id := by
      split
      · exact update_row_id r' e₃
      · rfl
    have hhash' : (if r'.dedupe_hash = (event_hashes e₃).dedupe_hash
        then update_row r' e₃ else r').dedupe_hash = r'.dedupe_hash := by
      split
      · exact update_row_dedupe r' e₃
      · rfl
    rw [hhash'] at hhash
    rw [hid']
    rcases List.mem_append.mp hr' with hmem | hmem
    · exact absurd hhash (habs r' hmem)
    · have : r' = update_row (insert_row e₁) e₂ := by simpa using hmem
      subst this
      rfl

theorem upsert_dedupe_identity_collapses_witness :
    (((upsert_events [] [sample_event_a, sample_event_b]).1).filter
        (fun r => r.dedupe_hash = (event_hashes sample_event_a).dedupe_hash)).length = 1
    ∧ ((upsert_events [] [sample_event_a, sample_event_b]).1).length = 0 + 1 := by
  have h := upsert_dedupe_identity_collapses [] sample_event_a sample_event_b
    (by left; constructor <;> decide) (by simp)
  exact ⟨h.1, h.2.1⟩

/-! ### Claim C4 -/

/-- C4 (amended): re-upserting an already-stored dedupe identity never
creates a second row, and the stored `ingested_at` is overwritten with the
candidate's `ingested_at` unconditionally; it does not regress exactly when
the candidate's value is at least the stored one. -/
theorem upsert_same_identity_no_second_row (rows : List EventRow)
    (e : WorldEvent)
    (hone : (rows.filter
      (fun r => r.dedupe_hash = (event_hashes e).dedupe_hash)).length = 1) :
    (∀ es : List WorldEvent,
      (((upsert_events rows es).1).filter
        (fun r => r.dedupe_hash = (event_hashes e).dedupe_hash)).length = 1)
    ∧ ((upsert_events rows [e]).1).length = rows.length
    ∧ (∀ r ∈ (upsert_events rows [e]).1,
        r.dedupe_hash = (event_hashes e).dedupe_hash →
          r.ingested_at = e.ingested_at)
    ∧ ((∀ r₀ ∈ rows, r₀.dedupe_hash = (event_hashes e).dedupe_hash →
          sqlite_ge e.ingested_at r₀.ingested_at = true) →
        ∀ r ∈ (upsert_events rows [e]).1,
          r.dedupe_hash = (event_hashes e).dedupe_hash →
          ∀ r₀ ∈ rows, r₀.dedupe_hash = (event_hashes e).dedupe_hash →
            sqlite_ge r.ingested_at r₀.ingested_at = true) := by
  have hpres : ∃ r₀ ∈ rows, r₀.dedupe_hash = (event_hashes e).dedupe_hash := by
    have hne : rows.filter
        (fun r => r.dedupe_hash = (event_hashes e).dedupe_hash) ≠ [] := by
      intro hnil
      rw [hnil] at hone
      simp at hone
    rcases List.exists_mem_of_ne_nil _ hne with ⟨r₀, hr₀⟩
    exact ⟨r₀, List.mem_of_mem_filter hr₀, by simpa using List.of_mem_filter hr₀⟩
  have hmap : (upsert_events rows [e]).1 = rows.map (fun r =>
      if r.dedupe_hash = (event_hashes e).dedupe_hash then update_row r e else r) :=
    upsert_one_of_present rows e hpres
  have hing : ∀ r ∈ (upsert_events rows [e]).1,
      r.dedupe_hash = (event_hashes e).dedupe_hash →
        r.ingested_at = e.ingested_at := by
    rw [hmap]
    intro r hr hhash
    rcases List.mem_map.mp hr with ⟨r', _, rfl⟩
    by_cases hc : r'.dedupe_hash = (event_hashes e).dedupe_hash
    · rw [if_pos hc]
      rfl
    · rw [if_neg hc] at hhash ⊢
      exact absurd hhash hc
  refine ⟨?_, ?_, hing, ?_⟩
  · intro es
    exact upsert_events_filter_hash_eq_one rows es _ hone
  · rw [hmap, List.length_map]
  · intro hge r hr hhash r₀ hr₀ hhash₀
    rw [hing r hr hhash]
    exact hge r₀ hr₀ hhash₀

/-- C4 counterexample: upserting a candidate with the same dedupe identity
but an earlier `ingested_at` regresses the stored `ingested_at` (the claim's
"for all values of the candidate's ingested_at field" fails). -/
theorem upsert_ingested_at_regresses :
    same_dedupe_identity sample_event_a sample_event_stale
    ∧ stored_row_a.ingested_at = "2026-02-20T11:00:00Z"
    ∧ ((upsert_events [stored_row_a] [sample_event_stale]).1.map
        (fun r => r.ingested_at)) = ["2025-01-01T00:00:00Z"]
    ∧ sqlite_ge ("2025-01-01T00:00:00Z") "2026-02-20T11:00:00Z" = false := by
  refine ⟨by left; constructor <;> decide, rfl, by decide, by decide⟩

theorem upsert_same_identity_no_second_row_witness :
    ((upsert_events [stored_row_a] [sample_event_stale]).1).length = 1 := by
  have h := (upsert_same_identity_no_second_row [stored_row_a]
    sample_event_stale (by decide)).2.1
  simpa using h

/-! ### Claim C10 -/

/-- C10: `upsert_events` returns the number of input candidates, not the
number of distinct rows affected; with a duplicated identity in the batch or
a candidate duplicating a stored row the returned count strictly exceeds the
growth of the table. -/
theorem upsert_events_returns_input_count (rows : List EventRow)
    (events : List WorldEvent) :
    (upsert_events rows events).2 = events.length
    ∧ (upsert_events rows ([] : List WorldEvent)).2 = 0
    ∧ ((upsert_events rows events).1).length ≤ rows.length + events.length
    ∧ (∀ e₁ e₂, same_dedupe_identity e₁ e₂ →
        (∀ r ∈ rows, r.dedupe_hash ≠ (event_hashes e₁).dedupe_hash) →
        ((upsert_events rows [e₁, e₂]).1).length - rows.length
          < (upsert_events rows [e₁, e₂]).2)
    ∧ (∀ e, (∃ r ∈ rows, r.dedupe_hash = (event_hashes e).dedupe_hash) →
        ((upsert_events rows [e]).1).length - rows.length
          < (upsert_events rows [e]).2) := by
  refine ⟨rfl, rfl, ?_, ?_, ?_⟩
  · show (events.foldl upsert_one rows).length ≤ rows.length + events.length
    induction events generalizing rows with
    | nil => simp
    | cons e t ih =>
      calc (t.foldl upsert_one (upsert_one rows e)).length
          ≤ (upsert_one rows e).length + t.length := ih (upsert_one rows e)
        _ ≤ rows.length + (e :: t).length := by
            have := upsert_one_length_le rows e
            simp only [List.length_cons]
            omega
  · intro e₁ e₂ hid habs
    rw [upsert_pair_eq rows e₁ e₂ hid habs]
    simp [upsert_events]
  · intro e hpres
    have : (upsert_events rows [e]).1 = rows.map (fun r =>
        if r.dedupe_hash = (event_hashes e).dedupe_hash then update_row r e else r) :=
      upsert_one_of_present rows e hpres
    rw [this, List.length_map]
    simp [upsert_events]

theorem upsert_events_returns_input_count_witness :
    (upsert_events [stored_row_a] [sample_event_stale]).2 = 1
    ∧ ((upsert_events [stored_row_a] [sample_event_stale]).1).length - 1
        < (upsert_events [stored_row_a] [sample_event_stale]).2 := by
  have h := upsert_events_returns_input_count [stored_row_a] [sample_event_stale]
  refine ⟨h.1, ?_⟩
  have h5 := h.2.2.2.2 sample_event_stale ⟨stored_row_a, by simp, by decide⟩
  simpa using h5

/-! ### Claim C2 -/

theorem foldl_preserves {α β : Type} (P : α → Prop) (f : α → β → α)
    (h : ∀ acc b, P acc → P (f acc b)) :
    ∀ (l : List β) (acc : α), P acc → P (l.foldl f acc) := by
  intro l
  induction l with
  | nil => intro acc hacc; exact hacc
  | cons b t ih => intro acc hacc; exact ih _ (h acc b hacc)

theorem add_alert_event_pair_unique (rows : List AlertEventRow)
    (ae : AlertEventRow) (huniq : pair_unique rows) :
    pair_unique (add_alert_event rows ae).1 := by
  unfold add_alert_event
  split
  · exact huniq
  · next hcond =>
    rw [List.any_eq_true] at hcond
    push_neg at hcond
    unfold pair_unique
    rw [List.pairwise_append]
    refine ⟨huniq, by simp [pair_unique], ?_⟩
    intro a ha b hb
    have := hcond a ha
    simp only [List.mem_singleton] at hb
    subst hb
    intro ⟨h1, h2⟩
    simp [h1, h2] at this

theorem add_alert_event_length (rows : List AlertEventRow) (ae : AlertEventRow) :
    ((add_alert_event rows ae).1).length
      = rows.length + (if (add_alert_event rows ae).2 then 1 else 0) := by
  unfold add_alert_event
  split <;> simp

/-- C2: `add_alert_event` is insert-if-absent on `(rule_id, event_id)` and
reports creation; hence the evaluator leaves at most one row per pair and
its `fired` count equals the number of newly created rows. -/
theorem add_alert_event_at_most_once (st : List AlertEventRow)
    (huniq : pair_unique st) :
    (∀ ae, (∃ r ∈ st, r.rule_id = ae.rule_id ∧ r.event_id = ae.event_id) →
        add_alert_event st ae = (st, false))
    ∧ (∀ ae, (add_alert_event st ae).2 = true ↔
        ((add_alert_event st ae).1).length = st.length + 1)
    ∧ (∀ ae, (add_alert_event st ae).2 = false → (add_alert_event st ae).1 = st)
    ∧ (∀ ae, pair_unique (add_alert_event st ae).1)
    ∧ (∀ pulse fresh_id now rules events,
        pair_unique (evaluate_rules pulse fresh_id now st rules events).1
        ∧ st.length + (evaluate_rules pulse fresh_id now st rules events).2
            = ((evaluate_rules pulse fresh_id now st rules events).1).length) := by
  refine ⟨?_, ?_, ?_, ?_, ?_⟩
  · intro ae ⟨r, hr, h1, h2⟩
    unfold add_alert_event
    rw [if_pos]
    rw [List.any_eq_true]
    exact ⟨r, hr, by simp [h1, h2]⟩
  · intro ae
    unfold add_alert_event
    split <;> simp
  · intro ae
    unfold add_alert_event
    split <;> simp
  · intro ae
    exact add_alert_event_pair_unique st ae huniq
  · intro pulse fresh_id now rules events
    unfold evaluate_rules
    split
    · exact ⟨huniq, by simp⟩
    · split
      · exact ⟨huniq, by simp⟩
      · have hinv : ∀ acc : List AlertEventRow × Nat × Nat,
            (pair_unique acc.1 ∧ st.length + acc.2.1 = acc.1.length) →
            ∀ rule, (pair_unique (evaluate_rule_step pulse fresh_id now events acc rule).1
              ∧ st.length + (evaluate_rule_step pulse fresh_id now events acc rule).2.1
                  = ((evaluate_rule_step pulse fresh_id now events acc rule).1).length) := by
          intro acc hacc rule
          unfold evaluate_rule_step
          split
          · exact hacc
          · apply foldl_preserves
              (fun acc : List AlertEventRow × Nat × Nat =>
                pair_unique acc.1 ∧ st.length + acc.2.1 = acc.1.length)
              (evaluate_one pulse fresh_id now rule)
            · intro acc' e hacc'
              unfold evaluate_one
              split
              · refine ⟨add_alert_event_pair_unique _ _ hacc'.1, ?_⟩
                have hlen := add_alert_event_length acc'.1
                  { id := fresh_id acc'.2.2, rule_id := rule.id, event_id := e.id,
                    status := "new", fired_at := now, acked_at := none,
                    resolved_at := none }
                rcases hcr : (add_alert_event acc'.1
                  { id := fresh_id acc'.2.2, rule_id := rule.id, event_id := e.id,
                    status := "new", fired_at := now, acked_at := none,
                    resolved_at := none }).2 with _ | _ <;>
                  simp [hcr] at hlen ⊢ <;> omega
              · exact hacc'
            · exact hacc
        have := foldl_preserves
          (fun acc : List AlertEventRow × Nat × Nat =>
            pair_unique acc.1 ∧ st.length + acc.2.1 = acc.1.length)
          (evaluate_rule_step pulse fresh_id now events)
          (fun acc rule hacc => hinv acc hacc rule)
          rules (st, 0, 0) ⟨huniq, by simp⟩
        exact this

theorem add_alert_event_at_most_once_witness :
    add_alert_event [sample_alert_row] sample_alert_dup
      = ([sample_alert_row], false) :=
  (add_alert_event_at_most_once [sample_alert_row]
      (by simp [pair_unique])).1
    sample_alert_dup ⟨sample_alert_row, by simp, by decide⟩

/-! ### Claim C3 -/

theorem mem_zip_same {α : Type} (l : List α) (p : α × α) (hp : p ∈ l.zip l) :
    p.2 = p.1 := by
  induction l with
  | nil => simp at hp
  | cons a t ih =>
    rcases List.mem_cons.mp hp with h | h
    · rw [h]
    · exact ih h

theorem mem_zip_map {α β : Type} (f : α → β) (l : List α) (p : α × β)
    (hp : p ∈ l.zip (l.map f)) : p.2 = f p.1 := by
  induction l with
  | nil => simp at hp
  | cons a t ih =>
    rcases List.mem_cons.mp hp with h | h
    · rw [h]
    · exact ih h

/-- C3 (amended): `update_alert_event_status` accepts only the target
statuses `acked` and `resolved` (anything else changes nothing and returns
`False`), so a row can never be set back to `new`; resolving stamps
`resolved_at` and sets `acked_at` to the resolution timestamp exactly when
it was unset; acking overwrites `acked_at` and leaves the row's other
fields — and it is accepted even on a resolved row, moving the status
backward to `acked` (there is no forward-only guard on the current
status). -/
theorem update_alert_event_status_spec (rows : List AlertEventRow)
    (alert_event_id status now : String) :
    (str_lower (str_strip status) ≠ "acked" ∧
        str_lower (str_strip status) ≠ "resolved" →
      update_alert_event_status rows alert_event_id status now = (rows, false))
    ∧ (∀ r ∈ (update_alert_event_status rows alert_event_id status now).1,
        r.status = "new" → r ∈ rows)
    ∧ (∀ p ∈ rows.zip (update_alert_event_status rows alert_event_id status now).1,
        (p.1.id ≠ alert_event_id → p.2 = p.1)
        ∧ (p.1.id = alert_event_id → str_lower (str_strip status) = "acked" →
            p.2.status = "acked" ∧ p.2.acked_at = some now
            ∧ p.2.resolved_at = p.1.resolved_at ∧ p.2.id = p.1.id
            ∧ p.2.rule_id = p.1.rule_id ∧ p.2.event_id = p.1.event_id
            ∧ p.2.fired_at = p.1.fired_at)
        ∧ (p.1.id = alert_event_id → str_lower (str_strip status) = "resolved" →
            p.2.status = "resolved" ∧ p.2.resolved_at = some now
            ∧ p.2.acked_at = some (p.1.acked_at.getD now) ∧ p.2.id = p.1.id
            ∧ p.2.rule_id = p.1.rule_id ∧ p.2.event_id = p.1.event_id
            ∧ p.2.fired_at = p.1.fired_at))
    ∧ ((update_alert_event_status rows alert_event_id status now).2 = true ↔
        ((str_lower (str_strip status) = "acked" ∨
          str_lower (str_strip status) = "resolved")
          ∧ ∃ r ∈ rows, r.id = alert_event_id)) := by
  by_cases hvalid : str_lower (str_strip status) ≠ "acked" ∧
      str_lower (str_strip status) ≠ "resolved"
  · have heq : update_alert_event_status rows alert_event_id status now
        = (rows, false) := by
      unfold update_alert_event_status
      rw [if_pos hvalid]
    refine ⟨fun _ => heq, ?_, ?_, ?_⟩
    · rw [heq]
      intro r hr _
      exact hr
    · rw [heq]
      intro p hp
      have hdiag := mem_zip_same rows p hp
      exact ⟨fun _ => hdiag, fun _ hs => absurd hs hvalid.1,
        fun _ hs => absurd hs hvalid.2⟩
    · rw [heq]
      constructor
      · intro h
        simp at h
      · rintro ⟨hs | hs, -⟩
        · exact absurd hs hvalid.1
        · exact absurd hs hvalid.2
  · have heq : update_alert_event_status rows alert_event_id status now
        = (rows.map (fun r =>
            if r.id = alert_event_id then
              (if str_lower (str_strip status) = "acked" then
                { r with status := str_lower (str_strip status), acked_at := some now }
              else
                { r with
                  status := str_lower (str_strip status)
                  resolved_at := some now
                  acked_at := some (r.acked_at.getD now) })
            else r),
          rows.any (fun r => r.id = alert_event_id)) := by
      unfold update_alert_event_status
      rw [if_neg hvalid]
    have hres_of : str_lower (str_strip status) ≠ "acked" →
        str_lower (str_strip status) = "resolved" := by
      intro h
      by_contra hr
      exact hvalid ⟨h, hr⟩
    refine ⟨?_, ?_, ?_, ?_⟩
    · intro hboth
      exact absurd hboth hvalid
    · rw [heq]
      intro r hr hnew
      rcases List.mem_map.mp hr with ⟨r', hr', rfl⟩
      by_cases hid : r'.id = alert_event_id
      · rw [if_pos hid] at hnew ⊢
        by_cases hak : str_lower (str_strip status) = "acked"
        · rw [if_pos hak] at hnew
          simp only at hnew
          rw [hak] at hnew
          exact absurd hnew (by decide)
        · rw [if_neg hak] at hnew
          simp only at hnew
          rw [hres_of hak] at hnew
          exact absurd hnew (by decide)
      · rw [if_neg hid]
        exact hr'
    · rw [heq]
      intro p hp
      have hmap := mem_zip_map _ rows p hp
      refine ⟨?_, ?_, ?_⟩
      · intro hne
        rw [hmap, if_neg hne]
      · intro hid hak
        rw [hmap, if_pos hid, if_pos hak]
        exact ⟨hak, rfl, rfl, rfl, rfl, rfl, rfl⟩
      · intro hid hres
        have hak : ¬(str_lower (str_strip status) = "acked") := by
          rw [hres]
          decide
        rw [hmap, if_pos hid, if_neg hak]
        exact ⟨hres, rfl, rfl, rfl, rfl, rfl, rfl⟩
    · rw [heq]
      simp only [List.any_eq_true, decide_eq_true_eq]
      constructor
      · intro hex
        refine ⟨?_, hex⟩
        by_cases hak : str_lower (str_strip status) = "acked"
        · exact Or.inl hak
        · exact Or.inr (hres_of hak)
      · intro h
        exact h.2

/-- C3 counterexample: acking a resolved alert is accepted and moves its
status backward from `resolved` to `acked` — the claimed forward-only state
machine does not hold. -/
theorem alert_status_moves_backward :
    resolved_alert_row.status = "resolved"
    ∧ (update_alert_event_status [resolved_alert_row] "ae-9" "acked"
        "2026-02-20T11:00:00Z").2 = true
    ∧ ((update_alert_event_status [resolved_alert_row] "ae-9" "acked"
        "2026-02-20T11:00:00Z").1.map (fun r => r.status)) = ["acked"] := by
  refine ⟨rfl, by decide, by decide⟩

theorem update_alert_event_status_spec_witness :
    update_alert_event_status [resolved_alert_row] "ae-9" "snoozed"
      "2026-02-20T11:00:00Z" = ([resolved_alert_row], false) :=
  (update_alert_event_status_spec [resolved_alert_row] "ae-9" "snoozed"
      "2026-02-20T11:00:00Z").1 (by constructor <;> decide)

/-! ### Claim C7 -/

/-- C7: `_rule_matches` accepts an event exactly when the severity threshold
is met (inclusive), every non-empty allow-list contains the event's value,
some keyword's normalized form occurs inside the normalized
title+summary+snippet concatenation, and, with spike detection on, the
event's country has `delta_ratio ≥ 1.0` in the freshly computed pulse. -/
theorem rule_matches_iff (pulse : List PulseEntry) (rule : AlertRule)
    (e : WorldEvent) :
    rule_matches pulse rule e = true ↔
      (rule.severity_threshold ≤ e.severity
      ∧ (rule.countries ≠ [] → e.country ∈ rule.countries)
      ∧ (rule.regions ≠ [] → e.region ∈ rule.regions)
      ∧ (rule.categories ≠ [] → e.category ∈ rule.categories)
      ∧ (rule.keywords ≠ [] → ∃ w ∈ rule.keywords,
          (normalize_text w).data <:+:
            (normalize_text
              (e.title ++ " " ++ e.summary ++ " " ++ e.body_snippet)).data)
      ∧ (rule.spike_detection = true → 1 ≤ pulse_delta pulse e.country)) := by
  unfold rule_matches
  split_ifs with h1 h2 h3 h4 h5 h6
  · constructor
    · intro h
      simp at h
    · rintro ⟨hsev, -⟩
      omega
  · rw [Bool.and_eq_true, Bool.not_eq_true', Bool.not_eq_true'] at h2
    constructor
    · intro h
      simp at h
    · rintro ⟨-, hc, -⟩
      have hne : rule.countries ≠ [] := by
        intro hnil
        rw [hnil] at h2
        simp at h2
      have hcontains : rule.countries.contains e.country = true :=
        List.elem_eq_true_of_mem (hc hne)
      rw [h2.2] at hcontains
      exact Bool.noConfusion hcontains
  · rw [Bool.and_eq_true, Bool.not_eq_true', Bool.not_eq_true'] at h3
    constructor
    · intro h
      simp at h
    · rintro ⟨-, -, hr, -⟩
      have hne : rule.regions ≠ [] := by
        intro hnil
        rw [hnil] at h3
        simp at h3
      have hcontains : rule.regions.contains e.region = true :=
        List.elem_eq_true_of_mem (hr hne)
      rw [h3.2] at hcontains
      exact Bool.noConfusion hcontains
  · rw [Bool.and_eq_true, Bool.not_eq_true', Bool.not_eq_true'] at h4
    constructor
    · intro h
      simp at h
    · rintro ⟨-, -, -, hcat, -⟩
      have hne : rule.categories ≠ [] := by
        intro hnil
        rw [hnil] at h4
        simp at h4
      have hcontains : rule.categories.contains e.category = true :=
        List.elem_eq_true_of_mem (hcat hne)
      rw [h4.2] at hcontains
      exact Bool.noConfusion hcontains
  · rw [Bool.and_eq_true, Bool.not_eq_true', Bool.not_eq_true'] at h5
    constructor
    · intro h
      simp at h
    · rintro ⟨-, -, -, -, hkw, -⟩
      have hne : rule.keywords ≠ [] := by
        intro hnil
        rw [hnil] at h5
        simp at h5
      rcases hkw hne with ⟨w, hw, hinf⟩
      have hall := h5.2
      rw [List.any_eq_false] at hall
      have hfalse := hall w hw
      simp [str_contains, hinf] at hfalse
  · rw [Bool.and_eq_true, decide_eq_true_eq] at h6
    constructor
    · intro h
      simp at h
    · rintro ⟨-, -, -, -, -, hsp⟩
      exact absurd h6.2 (not_lt.mpr (hsp h6.1))
  · simp only [true_iff]
    push_neg at h1
    refine ⟨h1, ?_, ?_, ?_, ?_, ?_⟩
    · intro hne
      by_contra hmem
      apply h2
      rw [Bool.and_eq_true]
      refine ⟨by rw [Bool.not_eq_true', List.isEmpty_eq_false]; exact hne, ?_⟩
      rw [Bool.not_eq_true']
      cases hcon : rule.countries.contains e.country
      · rfl
      · exact absurd (List.mem_of_elem_eq_true hcon) hmem
    · intro hne
      by_contra hmem
      apply h3
      rw [Bool.and_eq_true]
      refine ⟨by rw [Bool.not_eq_true', List.isEmpty_eq_false]; exact hne, ?_⟩
      rw [Bool.not_eq_true']
      cases hcon : rule.regions.contains e.region
      · rfl
      · exact absurd (List.mem_of_elem_eq_true hcon) hmem
    · intro hne
      by_contra hmem
      apply h4
      rw [Bool.and_eq_true]
      refine ⟨by rw [Bool.not_eq_true', List.isEmpty_eq_false]; exact hne, ?_⟩
      rw [Bool.not_eq_true']
      cases hcon : rule.categories.contains e.category
      · rfl
      · exact absurd (List.mem_of_elem_eq_true hcon) hmem
    · intro hne
      by_contra hkw
      push_neg at hkw
      apply h5
      rw [Bool.and_eq_true]
      refine ⟨by rw [Bool.not_eq_true', List.isEmpty_eq_false]; exact hne, ?_⟩
      rw [Bool.not_eq_true']
      cases hany : rule.keywords.any (fun w =>
          str_contains (normalize_text
            (e.title ++ " " ++ e.summary ++ " " ++ e.body_snippet))
            (normalize_text w))
      · rfl
      · rw [List.any_eq_true] at hany
        rcases hany with ⟨w, hw, hp⟩
        simp only [str_contains, decide_eq_true_eq] at hp
        exact absurd hp (hkw w hw)
    · intro hspike
      by_contra hdelta
      push_neg at hdelta
      apply h6
      rw [Bool.and_eq_true, decide_eq_true_eq]
      exact ⟨hspike, hdelta⟩

theorem rule_matches_iff_witness :
    rule_matches [] sample_rule sample_event_a = true :=
  (rule_matches_iff [] sample_rule sample_event_a).mpr (by decide)

/-! ### Claim C5 -/

theorem rss_fetch_source_all_errors (now cutoff : String)
    (resolve : String → GeoHit) (max_items : Nat) (src : RssSource) :
    ∀ (outcomes : List (Except String (List RssItem))) (errs : List String),
    (∀ o ∈ outcomes, ∃ msg, o = Except.error msg) →
    (rss_fetch_source now cutoff resolve max_items src outcomes errs).1 = []
    ∧ (errs ≠ [] ∨ outcomes ≠ [] →
        (rss_fetch_source now cutoff resolve max_items src outcomes errs).2 ≠ none) := by
  intro outcomes
  induction outcomes with
  | nil =>
    intro errs _
    refine ⟨rfl, ?_⟩
    rintro (h | h)
    · show (if errs.isEmpty then none else some (String.intercalate ("; ") errs)) ≠ none
      rw [if_neg]
      · simp
      · simpa [List.isEmpty_iff] using h
    · exact absurd rfl h
  | cons o rest ih =>
    intro errs hall
    rcases hall o (by simp) with ⟨msg, rfl⟩
    have hrest := ih (errs ++ [msg]) (fun o ho => hall o (by simp [ho]))
    refine ⟨hrest.1, ?_⟩
    intro _
    exact hrest.2 (Or.inl (by simp))

theorem rss_fold_all_errors (now cutoff : String) (resolve : String → GeoHit)
    (max_items : Nat) :
    ∀ (srcs : List (RssSource × List (Except String (List RssItem))))
      (acc : List WorldEvent × List String),
    (∀ sp ∈ srcs, ∀ o ∈ sp.2, ∃ msg, o = Except.error msg) →
    (srcs.foldl (rss_fold_step now cutoff resolve max_items) acc).1 = acc.1
    ∧ (acc.2 ≠ [] ∨ (∃ sp ∈ srcs, sp.2 ≠ []) →
        (srcs.foldl (rss_fold_step now cutoff resolve max_items) acc).2 ≠ []) := by
  intro srcs
  induction srcs with
  | nil =>
    intro acc _
    refine ⟨rfl, ?_⟩
    rintro (h | ⟨sp, hsp, -⟩)
    · exact h
    · simp at hsp
  | cons sp rest ih =>
    intro acc hall
    have hsrc := rss_fetch_source_all_errors now cutoff resolve max_items
      sp.1 sp.2 [] (hall sp (by simp))
    have ihr := ih (rss_fold_step now cutoff resolve max_items acc sp)
      (fun q hq => hall q (by simp [hq]))
    rw [List.foldl_cons]
    rcases hres : (rss_fetch_source now cutoff resolve max_items sp.1 sp.2 []).2
      with _ | e
    · have hstep : rss_fold_step now cutoff resolve max_items acc sp = acc := by
        simp [rss_fold_step, hsrc.1, hres]
      rw [hstep] at ihr
      rw [hstep]
      refine ⟨ihr.1, ?_⟩
      rintro (hne | ⟨q, hq, hqne⟩)
      · exact ihr.2 (Or.inl hne)
      · rcases List.mem_cons.mp hq with rfl | hq'
        · exact absurd hres (hsrc.2 (Or.inr hqne))
        · exact ihr.2 (Or.inr ⟨q, hq', hqne⟩)
    · have hstep : rss_fold_step now cutoff resolve max_items acc sp
          = (acc.1, acc.2 ++ [e]) := by
        simp [rss_fold_step, hsrc.1, hres]
      rw [hstep] at ihr
      rw [hstep]
      refine ⟨ihr.1, ?_⟩
      intro _
      exact ihr.2 (Or.inl (by simp))

/-- C5 (amended): USGS and GDELT never mix an error with events — any
upstream failure yields `error` set and an empty list.  The RSS connector
also never raises, but it aggregates per-source results: events from
healthy sources are returned next to the error string of failing ones, so
`error → no events` holds for it only when every source URL fails. -/
theorem connector_error_no_events :
    (∀ now payload d, (usgs_fetch now payload d).error ≠ none →
        (usgs_fetch now payload d).events = [])
    ∧ (∀ now cutoff payload d,
        (gdelt_fetch now cutoff payload d).error ≠ none →
        (gdelt_fetch now cutoff payload d).events = [])
    ∧ (∀ now cutoff resolve max_items
        (sources : List (RssSource × List (Except String (List RssItem)))) d,
        (∀ sp ∈ sources, ∀ o ∈ sp.2, ∃ msg, o = Except.error msg) →
        (rss_fetch now cutoff resolve max_items sources d).events = []
        ∧ ((∃ sp ∈ sources, sp.2 ≠ []) →
            (rss_fetch now cutoff resolve max_items sources d).error ≠ none)) := by
  refine ⟨?_, ?_, ?_⟩
  · intro now payload d herr
    cases payload with
    | error exc => rfl
    | ok features => exact absurd rfl herr
  · intro now cutoff payload d herr
    cases payload with
    | error exc => rfl
    | ok articles => exact absurd rfl herr
  · intro now cutoff resolve max_items sources d hall
    have hmain := rss_fold_all_errors now cutoff resolve max_items sources
      ([], []) hall
    constructor
    · exact hmain.1
    · intro hex
      have h2 := hmain.2 (Or.inr hex)
      show (if (sources.foldl _ ([], [])).2.isEmpty then none
        else some (String.intercalate ("; ") (sources.foldl _ ([], [])).2)) ≠ none
      rw [if_neg]
      · simp
      · simpa [List.isEmpty_iff] using h2

theorem connector_error_no_events_witness :
    (usgs_fetch ("2026-02-20T12:00:00Z") (Except.error ("boom")) 3).events = [] :=
  connector_error_no_events.1 ("2026-02-20T12:00:00Z") (Except.error ("boom")) 3
    (by simp [usgs_fetch])

/-- C5 counterexample: with one healthy source and one failing source, the
RSS connector returns a non-None error together with a non-empty (partial)
event list, contradicting the claim that an error always comes with zero
events. -/
theorem rss_error_with_partial_events :
    ((rss_fetch ("2026-02-20T12:00:00Z") "2026-02-18T00:00:00Z" sample_resolve 40
      [(rss_src_ok, [Except.ok [rss_ok_item]]),
       (rss_src_bad, [Except.error ("Broken Source:https://broken.example/feed -> timeout")])]
      5).error).isSome = true
    ∧ ((rss_fetch ("2026-02-20T12:00:00Z") "2026-02-18T00:00:00Z" sample_resolve 40
      [(rss_src_ok, [Except.ok [rss_ok_item]]),
       (rss_src_bad, [Except.error ("Broken Source:https://broken.example/feed -> timeout")])]
      5).events.map (fun e => e.title)) = ["Summit talks continue in Nairobi"] := by
  refine ⟨by decide, by decide⟩

/-! ### Claim C6 -/

theorem gdelt_to_event_cutoff (now cutoff : String) (a : GdeltArticle)
    (e : WorldEvent) (h : gdelt_to_event now cutoff a = some e) :
    strLtB e.occurred_at.data cutoff.data = false := by
  simp only [gdelt_to_event] at h
  by_cases h1 : str_strip a.title = "" ∨ str_strip a.url = ""
  · rw [if_pos h1] at h
    exact absurd h (by simp)
  · rw [if_neg h1] at h
    by_cases h2 : strLtB a.seendate_parsed.data cutoff.data = true
    · rw [if_pos h2] at h
      exact absurd h (by simp)
    · rw [if_neg h2] at h
      have he := Option.some.inj h
      rw [← he]
      rw [Bool.not_eq_true] at h2
      exact h2

theorem rss_item_to_event_cutoff (now cutoff : String)
    (resolve : String → GeoHit) (src : RssSource) (item : RssItem)
    (e : WorldEvent) (h : rss_item_to_event now cutoff resolve src item = some e) :
    strLtB e.occurred_at.data cutoff.data = false := by
  simp only [rss_item_to_event] at h
  by_cases h1 : item.title = "" ∨ item.link = ""
  · rw [if_pos h1] at h
    exact absurd h (by simp)
  · rw [if_neg h1] at h
    by_cases h2 : strLtB item.published_parsed.data cutoff.data = true
    · rw [if_pos h2] at h
      exact absurd h (by simp)
    · rw [if_neg h2] at h
      have he := Option.some.inj h
      rw [← he]
      rw [Bool.not_eq_true] at h2
      exact h2

theorem rss_parse_feed_cutoff (now cutoff : String) (resolve : String → GeoHit)
    (max_items : Nat) (src : RssSource) (items : List RssItem) (e : WorldEvent)
    (h : e ∈ rss_parse_feed now cutoff resolve max_items src items) :
    strLtB e.occurred_at.data cutoff.data = false := by
  unfold rss_parse_feed at h
  have h' := List.mem_of_mem_take h
  rcases List.mem_filterMap.mp h' with ⟨item, -, heq⟩
  exact rss_item_to_event_cutoff now cutoff resolve src item e heq

theorem rss_fetch_source_cutoff (now cutoff : String)
    (resolve : String → GeoHit) (max_items : Nat) (src : RssSource) :
    ∀ (outcomes : List (Except String (List RssItem))) (errs : List String)
      (e : WorldEvent),
    e ∈ (rss_fetch_source now cutoff resolve max_items src outcomes errs).1 →
    strLtB e.occurred_at.data cutoff.data = false := by
  intro outcomes
  induction outcomes with
  | nil =>
    intro errs e he
    simp [rss_fetch_source] at he
  | cons o rest ih =>
    intro errs e he
    cases o with
    | error msg => exact ih (errs ++ [msg]) e he
    | ok items =>
      by_cases hemp : (rss_parse_feed now cutoff resolve max_items src items).isEmpty
      · rw [show rss_fetch_source now cutoff resolve max_items src
            (Except.ok items :: rest) errs
            = rss_fetch_source now cutoff resolve max_items src rest errs by
          simp [rss_fetch_source, hemp]] at he
        exact ih errs e he
      · rw [show rss_fetch_source now cutoff resolve max_items src
            (Except.ok items :: rest) errs
            = (rss_parse_feed now cutoff resolve max_items src items, none) by
          simp [rss_fetch_source, hemp]] at he
        exact rss_parse_feed_cutoff now cutoff resolve max_items src items e he

theorem rss_fold_cutoff (now cutoff : String) (resolve : String → GeoHit)
    (max_items : Nat) :
    ∀ (srcs : List (RssSource × List (Except String (List RssItem))))
      (acc : List WorldEvent × List String) (e : WorldEvent),
    e ∈ (srcs.foldl (rss_fold_step now cutoff resolve max_items) acc).1 →
    e ∈ acc.1 ∨ strLtB e.occurred_at.data cutoff.data = false := by
  intro srcs
  induction srcs with
  | nil =>
    intro acc e he
    exact Or.inl he
  | cons sp rest ih =>
    intro acc e he
    rw [List.foldl_cons] at he
    rcases ih (rss_fold_step now cutoff resolve max_items acc sp) e he with hmem | hok
    · show e ∈ acc.1 ∨ _
      unfold rss_fold_step at hmem
      rcases List.mem_append.mp hmem with hmem | hmem
      · exact Or.inl hmem
      · exact Or.inr (rss_fetch_source_cutoff now cutoff resolve max_items
          sp.1 sp.2 [] e hmem)
    · exact Or.inr hok

/-- C6 (amended): the GDELT and RSS connectors exclude every record whose
occurrence time is strictly older than the `now - since_hours` cutoff; the
USGS connector performs no per-record cutoff filtering (it only selects a
day/week/month feed by `since_hours`), so its results can be older than the
cutoff. -/
theorem connector_cutoff_filter :
    (∀ now cutoff payload d, ∀ e ∈ (gdelt_fetch now cutoff payload d).events,
        strLtB e.occurred_at.data cutoff.data = false)
    ∧ (∀ now cutoff resolve max_items
        (sources : List (RssSource × List (Except String (List RssItem)))) d,
        ∀ e ∈ (rss_fetch now cutoff resolve max_items sources d).events,
        strLtB e.occurred_at.data cutoff.data = false) := by
  constructor
  · intro now cutoff payload d e he
    cases payload with
    | error exc => simp [gdelt_fetch] at he
    | ok articles =>
      rcases List.mem_filterMap.mp he with ⟨a, -, heq⟩
      exact gdelt_to_event_cutoff now cutoff a e heq
  · intro now cutoff resolve max_items sources d e he
    rcases rss_fold_cutoff now cutoff resolve max_items sources ([], []) e he
      with hmem | hok
    · simp at hmem
    · exact hok

/-- C6 counterexample: the USGS connector returns a record whose occurrence
time is far older than the `now - since_hours` cutoff (here the 48-hour
cutoff 2026-02-18T12:00:00Z), because its `fetch` never compares record
times against the cutoff. -/
theorem usgs_returns_stale_events :
    ((usgs_fetch ("2026-02-20T12:00:00Z") (Except.ok [stale_usgs_feature]) 2).events.map
      (fun e => e.occurred_at)) = ["2020-01-01T00:00:00Z"]
    ∧ strLtB ("2020-01-01T00:00:00Z").data ("2026-02-18T12:00:00Z").data = true := by
  refine ⟨by decide, by decide⟩

theorem connector_cutoff_filter_witness :
    strLtB ((gdelt_fetch ("2026-02-20T12:00:00Z") "2026-02-18T12:00:00Z"
        (Except.ok [sample_gdelt_article]) 2).events.headD
          sample_event_a).occurred_at.data
      ("2026-02-18T12:00:00Z").data = false := by
  apply connector_cutoff_filter.1 ("2026-02-20T12:00:00Z") "2026-02-18T12:00:00Z"
    (Except.ok [sample_gdelt_article]) 2
  decide

/-! ### Claim C8 -/

theorem strLtB_irrefl : ∀ l : List Char, strLtB l l = false := by
  intro l
  induction l with
  | nil => rfl
  | cons c rest ih =>
    simp only [strLtB]
    rw [if_neg (lt_irrefl c), if_neg (lt_irrefl c)]
    exact ih

theorem strLtB_cons_same (c : Char) (a b : List Char) :
    strLtB (c :: a) (c :: b) = strLtB a b := by
  simp only [strLtB]
  rw [if_neg (lt_irrefl c), if_neg (lt_irrefl c)]

theorem strLtB_append_left : ∀ (p a b : List Char),
    strLtB (p ++ a) (p ++ b) = strLtB a b := by
  intro p
  induction p with
  | nil => intro a b; rfl
  | cons c p ih =>
    intro a b
    show strLtB (c :: (p ++ a)) (c :: (p ++ b)) = _
    rw [strLtB_cons_same]
    exact ih a b

theorem strLtB_append_of_lt : ∀ (a b : List Char), strLtB a b = true →
    a.length = b.length → ∀ (x y : List Char),
    strLtB (a ++ x) (b ++ y) = true := by
  intro a
  induction a with
  | nil =>
    intro b h hlen x y
    cases b with
    | nil => simp [strLtB] at h
    | cons d b => simp at hlen
  | cons c a ih =>
    intro b h hlen x y
    cases b with
    | nil => simp [strLtB] at h
    | cons d b =>
      simp only [List.cons_append]
      simp only [strLtB] at h ⊢
      by_cases hcd : c < d
      · rw [if_pos hcd]
      · rw [if_neg hcd] at h ⊢
        by_cases hdc : d < c
        · rw [if_pos hdc] at h
          exact absurd h (by simp)
        · rw [if_neg hdc] at h ⊢
          exact ih b h (by simpa using hlen) x y

set_option maxRecDepth 8000 in
theorem pad2_lt : ∀ a, a < 100 → ∀ b, b < 100 → a < b →
    strLtB (pad2 a) (pad2 b) = true := by decide

theorem pad4_lt (a b : Nat) (hb : b ≤ 9999) (hab : a < b) :
    strLtB (pad4 a) (pad4 b) = true := by
  unfold pad4
  by_cases h : a / 100 = b / 100
  · rw [h, strLtB_append_left]
    apply pad2_lt
    · omega
    · omega
    · omega
  · have hlt : a / 100 < b / 100 := by omega
    apply strLtB_append_of_lt
    · apply pad2_lt
      · omega
      · omega
      · exact hlt
    · rfl

theorem dt_prefix_lt (a b : DT) (ha : a.valid) (hb : b.valid)
    (hlt : a.lexLt b) : strLtB (dt_stamp a) (dt_stamp b) = true := by
  obtain ⟨hay, ham1, ham2, had1, had2, hah, hami, has⟩ := ha
  obtain ⟨hby, hbm1, hbm2, hbd1, hbd2, hbh, hbmi, hbs⟩ := hb
  unfold dt_stamp
  rcases hlt with hy | ⟨hy, hlt⟩
  · exact strLtB_append_of_lt _ _ (pad4_lt _ _ hby hy) rfl _ _
  · rw [hy, strLtB_append_left, strLtB_cons_same]
    rcases hlt with hmo | ⟨hmo, hlt⟩
    · exact strLtB_append_of_lt _ _
        (pad2_lt _ (by omega) _ (by omega) hmo) rfl _ _
    · rw [hmo, strLtB_append_left, strLtB_cons_same]
      rcases hlt with hd | ⟨hd, hlt⟩
      · exact strLtB_append_of_lt _ _
          (pad2_lt _ (by omega) _ (by omega) hd) rfl _ _
      · rw [hd, strLtB_append_left, strLtB_cons_same]
        rcases hlt with hh | ⟨hh, hlt⟩
        · exact strLtB_append_of_lt _ _
            (pad2_lt _ (by omega) _ (by omega) hh) rfl _ _
        · rw [hh, strLtB_append_left, strLtB_cons_same]
          rcases hlt with hmi | ⟨hmi, hs⟩
          · exact strLtB_append_of_lt _ _
              (pad2_lt _ (by omega) _ (by omega) hmi) rfl _ _
          · rw [hmi, strLtB_append_left, strLtB_cons_same]
            exact pad2_lt _ (by omega) _ (by omega) hs

/-- C8: the cutoff string computed by `list_events` carries fractional
seconds while stored timestamps are second-precision, yet the SQL comparison
`occurred_at >= cutoff` realises an inclusive chronological boundary: an
event stamped at the cutoff's own second is kept, and any chronologically
earlier second-precision event (in particular one second older) is
dropped. -/
theorem list_events_window_boundary (c c' : DT) (u : Nat)
    (hc : DT.valid c) (hc' : DT.valid c') (hu : u ≤ 999999)
    (hlt : DT.lexLt c' c) :
    sqlite_ge (iso_z c) (iso_micro_z c u) = true
    ∧ sqlite_ge (iso_z c') (iso_micro_z c u) = false
    ∧ (∀ (rows : List EventRow) (r : EventRow), r ∈ rows →
        r.occurred_at = iso_z c →
        r ∈ list_events_window (iso_micro_z c u) rows)
    ∧ (∀ (rows : List EventRow) (r : EventRow), r.occurred_at = iso_z c' →
        r ∉ list_events_window (iso_micro_z c u) rows) := by
  have hzdot : strLtB ['Z'] ('.' :: (pad6 u ++ ['Z'])) = false := by
    simp only [strLtB]
    rw [if_neg (by decide), if_pos (by decide)]
  have hin : sqlite_ge (iso_z c) (iso_micro_z c u) = true := by
    by_cases hu0 : u = 0
    · rw [iso_micro_z, if_pos hu0]
      unfold sqlite_ge
      rw [strLtB_irrefl]
      rfl
    · rw [iso_micro_z, if_neg hu0]
      unfold sqlite_ge
      have h1 : (iso_z c).data = dt_stamp c ++ ['Z'] := rfl
      have h2 : (String.mk (dt_stamp c ++ ('.' :: (pad6 u ++ ['Z'])))).data
          = dt_stamp c ++ ('.' :: (pad6 u ++ ['Z'])) := rfl
      rw [h1, h2, strLtB_append_left, hzdot]
      rfl
  have hout : sqlite_ge (iso_z c') (iso_micro_z c u) = false := by
    have hpre := dt_prefix_lt c' c hc' hc hlt
    by_cases hu0 : u = 0
    · rw [iso_micro_z, if_pos hu0]
      unfold sqlite_ge
      have h1 : (iso_z c').data = dt_stamp c' ++ ['Z'] := rfl
      have h2 : (iso_z c).data = dt_stamp c ++ ['Z'] := rfl
      rw [h1, h2, strLtB_append_of_lt _ _ hpre rfl]
      rfl
    · rw [iso_micro_z, if_neg hu0]
      unfold sqlite_ge
      have h1 : (iso_z c').data = dt_stamp c' ++ ['Z'] := rfl
      have h2 : (String.mk (dt_stamp c ++ ('.' :: (pad6 u ++ ['Z'])))).data
          = dt_stamp c ++ ('.' :: (pad6 u ++ ['Z'])) := rfl
      rw [h1, h2, strLtB_append_of_lt _ _ hpre rfl]
      rfl
  refine ⟨hin, hout, ?_, ?_⟩
  · intro rows r hr hocc
    unfold list_events_window
    rw [List.mem_filter]
    exact ⟨hr, by rw [hocc]; exact hin⟩
  · intro rows r hocc hmem
    unfold list_events_window at hmem
    rw [List.mem_filter] at hmem
    rw [hocc, hout] at hmem
    exact Bool.noConfusion hmem.2

theorem list_events_window_boundary_witness :
    sqlite_ge (iso_z ⟨2026, 2, 20, 12, 0, 0⟩)
      (iso_micro_z ⟨2026, 2, 20, 12, 0, 0⟩ 123456) = true
    ∧ sqlite_ge (iso_z ⟨2026, 2, 20, 11, 59, 59⟩)
      (iso_micro_z ⟨2026, 2, 20, 12, 0, 0⟩ 123456) = false := by
  have h := list_events_window_boundary ⟨2026, 2, 20, 12, 0, 0⟩
    ⟨2026, 2, 20, 11, 59, 59⟩ 123456 (by unfold DT.valid; decide)
    (by unfold DT.valid; decide) (by decide)
    (by unfold DT.lexLt; decide)
  exact ⟨h.1, h.2.1⟩

theorem ingest_inv_init : ingest_inv ingest_init := by
  unfold ingest_inv ingest_init
  refine ⟨?_, ?_, ?_, ?_⟩ <;> simp

theorem ingest_inv_step (s s' : IngestState) (hinv : ingest_inv s)
    (hstep : IngestStep s s') : ingest_inv s' := by
  obtain ⟨hlock, hmutex, hbusyA, hbusyB⟩ := hinv
  cases hstep with
  | acquireA hpc hl =>
    have hnotB : s.pcB ≠ IngestPC.runningPass := by
      intro hB
      have := hlock.mpr (Or.inr hB)
      rw [hl] at this
      exact Bool.noConfusion this
    have hnotBusyB : s.pcB ≠ IngestPC.doneBusy := by
      intro hB
      rcases hbusyB hB with h | h
      · rw [hpc] at h
        exact IngestPC.noConfusion h
      · rw [hpc] at h
        exact IngestPC.noConfusion h
    refine ⟨by simp, ?_, ?_, ?_⟩
    · rintro ⟨-, hB⟩
      exact hnotB hB
    · intro h
      exact absurd h (by simp)
    · intro h
      exact absurd h hnotBusyB
  | busyA hpc hl =>
    have hB : s.pcB = IngestPC.runningPass := by
      rcases hlock.mp hl with h | h
      · rw [hpc] at h
        exact IngestPC.noConfusion h
      · exact h
    refine ⟨?_, ?_, ?_, ?_⟩
    · rw [hl]
      simp [hB]
    · rintro ⟨hA, -⟩
      exact IngestPC.noConfusion hA
    · intro _
      exact Or.inl hB
    · intro h
      rw [hB] at h
      exact IngestPC.noConfusion h
  | finishA hpc =>
    have hnotB : s.pcB ≠ IngestPC.runningPass := by
      intro hB
      exact hmutex ⟨hpc, hB⟩
    refine ⟨?_, ?_, ?_, ?_⟩
    · constructor
      · intro h
        exact Bool.noConfusion h
      · rintro (h | h)
        · exact IngestPC.noConfusion h
        · exact absurd h hnotB
    · rintro ⟨hA, -⟩
      exact IngestPC.noConfusion hA
    · intro h
      exact absurd h (by simp)
    · intro h
      exact Or.inr rfl
  | acquireB hpc hl =>
    have hnotA : s.pcA ≠ IngestPC.runningPass := by
      intro hA
      have := hlock.mpr (Or.inl hA)
      rw [hl] at this
      exact Bool.noConfusion this
    have hnotBusyA : s.pcA ≠ IngestPC.doneBusy := by
      intro hA
      rcases hbusyA hA with h | h
      · rw [hpc] at h
        exact IngestPC.noConfusion h
      · rw [hpc] at h
        exact IngestPC.noConfusion h
    refine ⟨by simp, ?_, ?_, ?_⟩
    · rintro ⟨hA, -⟩
      exact hnotA hA
    · intro h
      exact absurd h hnotBusyA
    · intro h
      exact absurd h (by simp)
  | busyB hpc hl =>
    have hA : s.pcA = IngestPC.runningPass := by
      rcases hlock.mp hl with h | h
      · exact h
      · rw [hpc] at h
        exact IngestPC.noConfusion h
    refine ⟨?_, ?_, ?_, ?_⟩
    · rw [hl]
      simp [hA]
    · rintro ⟨-, hB⟩
      exact IngestPC.noConfusion hB
    · intro h
      rw [hA] at h
      exact IngestPC.noConfusion h
    · intro _
      exact Or.inl hA
  | finishB hpc =>
    have hnotA : s.pcA ≠ IngestPC.runningPass := by
      intro hA
      exact hmutex ⟨hA, hpc⟩
    refine ⟨?_, ?_, ?_, ?_⟩
    · constructor
      · intro h
        exact Bool.noConfusion h
      · rintro (h | h)
        · exact absurd h hnotA
        · exact IngestPC.noConfusion h
    · rintro ⟨-, hB⟩
      exact IngestPC.noConfusion hB
    · intro h
      exact Or.inr rfl
    · intro h
      exact absurd h (by simp)

theorem ingest_inv_reachable (s : IngestState) (h : IngestReachable s) :
    ingest_inv s := by
  induction h with
  | refl => exact ingest_inv_init
  | tail _ hstep ih => exact ingest_inv_step _ _ ih hstep

/-- C9: the single-flight guard.  In every reachable interleaving of two
`ingest()` callers: at most one caller is ever inside a pass; they can never
both end busy (so overlapping calls produce exactly one full run and one
busy return, and sequential calls two full runs); and while one caller is
running, the only step available to the other is the failed non-blocking
acquire, which moves it straight to its busy return — it neither runs a
pass nor blocks. -/
theorem ingest_single_flight (s : IngestState) (h : IngestReachable s) :
    ¬(s.pcA = IngestPC.runningPass ∧ s.pcB = IngestPC.runningPass)
    ∧ ¬(s.pcA = IngestPC.doneBusy ∧ s.pcB = IngestPC.doneBusy)
    ∧ (s.pcA = IngestPC.runningPass → s.pcB = IngestPC.idle →
        ∀ s', IngestStep s s' → s'.pcA = s.pcA →
          s'.pcB = IngestPC.idle ∨ s'.pcB = IngestPC.doneBusy)
    ∧ (s.pcB = IngestPC.runningPass → s.pcA = IngestPC.idle →
        ∀ s', IngestStep s s' → s'.pcB = s.pcB →
          s'.pcA = IngestPC.idle ∨ s'.pcA = IngestPC.doneBusy) := by
  obtain ⟨hlock, hmutex, hbusyA, hbusyB⟩ := ingest_inv_reachable s h
  refine ⟨hmutex, ?_, ?_, ?_⟩
  · rintro ⟨hA, hB⟩
    rcases hbusyA hA with h' | h' <;> rw [hB] at h' <;>
      exact IngestPC.noConfusion h'
  · intro hA hBidle s' hstep hkeep
    cases hstep with
    | acquireA hpc hl =>
      rw [hA] at hpc
      exact IngestPC.noConfusion hpc
    | busyA hpc hl =>
      rw [hA] at hpc
      exact IngestPC.noConfusion hpc
    | finishA hpc =>
      rw [← hkeep] at hA
      exact IngestPC.noConfusion hA
    | acquireB hpc hl =>
      have := hlock.mpr (Or.inl hA)
      rw [hl] at this
      exact Bool.noConfusion this
    | busyB hpc hl =>
      right
      rfl
    | finishB hpc =>
      rw [hBidle] at hpc
      exact IngestPC.noConfusion hpc
  · intro hB hAidle s' hstep hkeep
    cases hstep with
    | acquireB hpc hl =>
      rw [hB] at hpc
      exact IngestPC.noConfusion hpc
    | busyB hpc hl =>
      rw [hB] at hpc
      exact IngestPC.noConfusion hpc
    | finishB hpc =>
      rw [← hkeep] at hB
      exact IngestPC.noConfusion hB
    | acquireA hpc hl =>
      have := hlock.mpr (Or.inr hB)
      rw [hl] at this
      exact Bool.noConfusion this
    | busyA hpc hl =>
      right
      rfl
    | finishA hpc =>
      rw [hAidle] at hpc
      exact IngestPC.noConfusion hpc

theorem ingest_single_flight_witness :
    ¬((⟨true, IngestPC.runningPass, IngestPC.doneBusy⟩ : IngestState).pcA
        = IngestPC.runningPass
      ∧ (⟨true, IngestPC.runningPass, IngestPC.doneBusy⟩ : IngestState).pcB
        = IngestPC.runningPass)
    ∧ ¬((⟨true, IngestPC.runningPass, IngestPC.doneBusy⟩ : IngestState).pcA
        = IngestPC.doneBusy
      ∧ (⟨true, IngestPC.runningPass, IngestPC.doneBusy⟩ : IngestState).pcB
        = IngestPC.doneBusy) := by
  have hreach : IngestReachable ⟨true, IngestPC.runningPass, IngestPC.doneBusy⟩ :=
    Relation.ReflTransGen.tail
      (Relation.ReflTransGen.tail Relation.ReflTransGen.refl
        (IngestStep.acquireA ingest_init rfl rfl))
      (IngestStep.busyB ⟨true, IngestPC.runningPass, IngestPC.idle⟩ rfl rfl)
  have h := ingest_single_flight _ hreach
  exact ⟨h.1, h.2.1⟩
